import Mathlib

/-!
# Verification of the go-llca simulation engine

A shallow embedding of the life-like cellular automaton engine from
`go-llca` (package `game`): the packed-byte grid representation, the
precomputed rule tables, the incremental generation-advance kernel
(`updateRange`), the two-phase partitioned board update (`updateBoard`),
board initialization (`InitializeBoard`), and the pixel buffer co-update
(`setPixel`).

Modelling conventions:
* The flat `[]int8` slices `worldGrid` and `buffer` are modelled as total
  functions `Nat → Int` (linear index, exactly the Go index expressions).
  Values proved to stay in `[-17, 34]` (see the overflow theorems), so
  plain `Int` addition agrees with wrapping `int8` addition everywhere.
* The `[]byte` pixel buffer is modelled as `Nat → Nat`.
* The process-global PRNG `r` (`math/rand`, external to the repo) is
  modelled abstractly as a deterministic source: a `stream : Nat → Nat` of
  draws (the successive `r.Int63n(100000)` results for a given seed)
  together with a position.  `rand.New(rand.NewSource(seed))` yields the
  stream at position 0.
* The float threshold `int(1000 * g.avgStartingLiveCellPercentage)` is
  taken as an integer parameter `thr`.
* Goroutines of one phase of `updateBoard` write to disjoint cells, so the
  phase is modelled by running its tasks sequentially (in spawn order).
-/

namespace GoLLCA

/-- `type Ruleset [9]bool` — only indices 0..8 are ever used. -/
abbrev Ruleset := Nat → Bool

/-- The engine-relevant fields of the Go `Game` struct. -/
structure Game where
  worldGrid : Nat → Int
  buffer : Nat → Int
  pixels : Nat → Nat
  gridX : Nat
  gridY : Nat
  bRules : Ruleset
  sRules : Ruleset
  becomesAliveTable : Nat → Bool
  becomesDeadTable : Nat → Bool

/-- Building `becomesAliveTable`: clear all 18 entries, then
`for i range bRules { if bRules[i] { table[2*i] = true } }`. -/
def mkBecomesAliveTable (bRules : Ruleset) : Nat → Bool :=
  (List.range 9).foldl (fun t i => if bRules i then Function.update t (2 * i) true else t)
    (fun _ => false)

/-- Building `becomesDeadTable`: clear all 18 entries, then
`for i range sRules { if !sRules[i] { table[1+2*i] = true } }`. -/
def mkBecomesDeadTable (sRules : Ruleset) : Nat → Bool :=
  (List.range 9).foldl (fun t i => if !(sRules i) then Function.update t (1 + 2 * i) true else t)
    (fun _ => false)

/-- `func (g *Game) updateTables()`. -/
def updateTables (g : Game) : Game :=
  { g with becomesAliveTable := mkBecomesAliveTable g.bRules,
           becomesDeadTable := mkBecomesDeadTable g.sRules }

/-- `var colors [2][]byte = {{255,255,255,255},{0,0,0,255}}`; `colors i k` is byte `k`
of color `i`. -/
def colors (i k : Nat) : Nat :=
  if i = 1 then (if k = 3 then 255 else 0) else 255

/-- `func setPixel(pixels []byte, gridX, x, y int, isBlack bool)`: writes the 4 RGBA
bytes of color `colors[i]` at offset `4*(y*gridX+x)`. -/
def setPixel (pixels : Nat → Nat) (gridX x y : Nat) (isBlack : Bool) : Nat → Nat :=
  let i := if isBlack then 1 else 0
  let ind := 4 * (y * gridX + x)
  Function.update (Function.update (Function.update (Function.update pixels
    ind (colors i 0)) (ind + 1) (colors i 1)) (ind + 2) (colors i 2)) (ind + 3) (colors i 3)

/-- `b[n] += d` on a flat int8 slice. -/
def bump (b : Nat → Int) (n : Nat) (d : Int) : Nat → Int :=
  Function.update b n (b n + d)

/-- The body of the double loop of `updateRange`, for one cell `(i, j)`
(row `i`, column `j`, both 1-based): look up the packed value in `worldGrid`,
consult the tables, and on a transition apply the nine buffer increments and
the pixel write, in source order. -/
def applyCell (g : Game) (i j : Nat) : Game :=
  let gridXPlusTwo := g.gridX + 2
  let val := (g.worldGrid (i * gridXPlusTwo + j)).toNat
  if g.becomesAliveTable val then
    { g with
      buffer := bump (bump (bump (bump (bump (bump (bump (bump (bump g.buffer
        ((i - 1) * gridXPlusTwo + j - 1) 2)
        ((i - 1) * gridXPlusTwo + j) 2)
        ((i - 1) * gridXPlusTwo + j + 1) 2)
        (i * gridXPlusTwo + j - 1) 2)
        (i * gridXPlusTwo + j) 1)
        (i * gridXPlusTwo + j + 1) 2)
        ((i + 1) * gridXPlusTwo + j - 1) 2)
        ((i + 1) * gridXPlusTwo + j) 2)
        ((i + 1) * gridXPlusTwo + j + 1) 2,
      pixels := setPixel g.pixels g.gridX (j - 1) (i - 1) false }
  else if g.becomesDeadTable val then
    { g with
      buffer := bump (bump (bump (bump (bump (bump (bump (bump (bump g.buffer
        ((i - 1) * gridXPlusTwo + j - 1) (-2))
        ((i - 1) * gridXPlusTwo + j) (-2))
        ((i - 1) * gridXPlusTwo + j + 1) (-2))
        (i * gridXPlusTwo + j - 1) (-2))
        (i * gridXPlusTwo + j) (-1))
        (i * gridXPlusTwo + j + 1) (-2))
        ((i + 1) * gridXPlusTwo + j - 1) (-2))
        ((i + 1) * gridXPlusTwo + j) (-2))
        ((i + 1) * gridXPlusTwo + j + 1) (-2),
      pixels := setPixel g.pixels g.gridX (j - 1) (i - 1) true }
  else g

/-- Process a list of cells in order (the kernel loops are row-major lists of cells). -/
def applyCells (g : Game) (cells : List (Nat × Nat)) : Game :=
  cells.foldl (fun gm c => applyCell gm c.1 c.2) g

/-- The cells of row `i`: `for j := 1; j <= gridX; j++`. -/
def rowCells (X i : Nat) : List (Nat × Nat) :=
  (List.range X).map (fun j0 => (i, j0 + 1))

/-- The cells visited by `updateRange(minY, maxY)`:
`for i := minY; i <= maxY; i++ { for j := 1; j <= gridX; j++ }`. -/
def rangeCells (X minY maxY : Nat) : List (Nat × Nat) :=
  ((List.range (maxY + 1 - minY)).map (fun k => rowCells X (minY + k))).flatten

/-- `func (g *Game) updateRange(minY, maxY int)`. -/
def updateRange (g : Game) (minY maxY : Nat) : Game :=
  applyCells g (rangeCells g.gridX minY maxY)

/-- `numParts := POOL_SIZE; if numParts > g.gridY/4 { numParts = g.gridY/4 }`.
In Go, `numParts = 0` makes the subsequent `g.gridY / numParts` panic. -/
def numParts (poolSize gridY : Nat) : Nat :=
  if poolSize > gridY / 4 then gridY / 4 else poolSize

/-- `func (g *Game) updateBoard() error`, parameterized by the global `POOL_SIZE`:
snapshot `worldGrid` into `buffer`, run the interior pass of every part, then the
two outer edge rows and every two-row seam band, and copy `buffer` back. -/
def updateBoard (g : Game) (poolSize : Nat) : Game :=
  let g1 := { g with buffer := g.worldGrid }
  let m := numParts poolSize g.gridY
  let rowsPerPart := g.gridY / m
  let g2 := (List.range m).foldl (fun gm i =>
      let minY := 1 + i * rowsPerPart
      let maxY := if i = m - 1 then g.gridY else minY + rowsPerPart - 1
      updateRange gm (minY + 1) (maxY - 1)) g1
  let g3 := updateRange g2 1 1
  let g4 := updateRange g3 g.gridY g.gridY
  let g5 := (List.range (m - 1)).foldl (fun gm i0 =>
      let minY := 1 + (i0 + 1) * rowsPerPart
      updateRange gm (minY - 1) minY) g4
  { g5 with worldGrid := g5.buffer }

/-- Modelled from the spec: the serial reference semantics of one generation
advance ("a serial whole-board update of the same snapshot-transition-swap
semantics"): snapshot, one kernel pass over all interior rows, swap.  Used as
the comparison point for the parallel/serial equivalence claim. -/
def updateBoardSerial (g : Game) : Game :=
  let g1 := { g with buffer := g.worldGrid }
  let g2 := updateRange g1 1 g.gridY
  { g2 with worldGrid := g2.buffer }

/-- The abstract deterministic PRNG source: `stream` is the draw sequence of a
seeded `rand.Rand` (each draw already reduced mod 100000), `pos` the number of
draws consumed so far. -/
structure Rng where
  stream : Nat → Nat
  pos : Nat

/-- One `r.Int63n(100000)` draw. -/
def Rng.next (r : Rng) : Nat × Rng :=
  (r.stream r.pos, { r with pos := r.pos + 1 })

/-- The grid writes of `InitializeBoard` for one cell that comes up alive:
`worldGrid[ind] |= 1`, then `+= 2` on each of the 8 neighbours
(`for a, b in -1..1, (a,b) ≠ (0,0)`). -/
def initAlive (w : Nat → Int) (W i j : Nat) : Nat → Int :=
  let W2 := W + 2
  let w1 := Function.update w (i * W2 + j) (Int.lor (w (i * W2 + j)) 1)
  bump (bump (bump (bump (bump (bump (bump (bump w1
    ((i - 1) * W2 + j - 1) 2)
    ((i - 1) * W2 + j) 2)
    ((i - 1) * W2 + j + 1) 2)
    (i * W2 + j - 1) 2)
    (i * W2 + j + 1) 2)
    ((i + 1) * W2 + j - 1) 2)
    ((i + 1) * W2 + j) 2)
    ((i + 1) * W2 + j + 1) 2

/-- The body of the random-fill loop of `InitializeBoard` for one cell: draw,
and if the draw is below the threshold, mark the cell alive (grid writes plus
the white pixel). -/
def initCell (W : Nat) (thr : Int) (st : Game × Rng) (c : Nat × Nat) : Game × Rng :=
  let (d, r') := st.2.next
  if (d : Int) < thr then
    ({ st.1 with
        worldGrid := initAlive st.1.worldGrid W c.1 c.2,
        pixels := setPixel st.1.pixels W (c.2 - 1) (c.1 - 1) false }, r')
  else (st.1, r')

/-- The row-major list of interior cells `(i, j)`, `1 ≤ i ≤ H`, `1 ≤ j ≤ W`,
in the visit order of the `InitializeBoard` loops. -/
def initCells (W H : Nat) : List (Nat × Nat) :=
  ((List.range H).map (fun k => rowCells W (k + 1))).flatten

/-- The pixel buffer right before the random fill: a fresh zeroed byte slice
with every cell's pixel set black. -/
def blackPixels (W H : Nat) : Nat → Nat :=
  (initCells W H).foldl (fun px c => setPixel px W (c.2 - 1) (c.1 - 1) true) (fun _ => 0)

/-- `func (g *Game) InitializeBoard()` with the grid dimensions `W × H` (computed
in Go from the screen size and scale factor) and the density threshold passed in,
threading the PRNG state explicitly. -/
def InitializeBoard (g : Game) (W H : Nat) (thr : Int) (r : Rng) : Game × Rng :=
  let g1 := { g with gridX := W, gridY := H,
                     pixels := blackPixels W H,
                     worldGrid := fun _ => 0, buffer := fun _ => 0 }
  (initCells W H).foldl (initCell W thr) (g1, r)

/-- `func (g *Game) InitializeState()` (engine part): seed the PRNG once
(`r = rand.New(rand.NewSource(SEED))`, i.e. stream position 0), install Conway
rules `B3/S23`, and build the tables. -/
def InitializeState (g : Game) (stream : Nat → Nat) : Game × Rng :=
  let r : Rng := { stream := stream, pos := 0 }
  let g1 := { g with
      bRules := Function.update (fun _ => false) 3 true,
      sRules := Function.update (Function.update (fun _ => false) 2 true) 3 true }
  (updateTables g1, r)

/-- `func (g *Game) restart()` (engine part): install the UI-selected rules,
rebuild the tables, and re-run `InitializeBoard` with the *current* PRNG state
(the source is seeded only once, in `InitializeState`). -/
def restart (g : Game) (newB newS : Ruleset) (W H : Nat) (thr : Int) (r : Rng) : Game × Rng :=
  InitializeBoard (updateTables { g with bRules := newB, sRules := newS }) W H thr r

/-! ## Derived notions used in the statements -/

/-- The transition direction the kernel chooses for cell `(i, j)` when reading
grid `w` with tables `bt`/`dt`: `1` if it becomes alive, `-1` if it dies, else `0`. -/
def trans (w : Nat → Int) (bt dt : Nat → Bool) (X i j : Nat) : Int :=
  let val := (w (i * (X + 2) + j)).toNat
  if bt val then 1 else if dt val then -1 else 0

/-- The increment the kernel adds at flat index `n` when cell `(i, j)` transitions
up: `+2` on each cell of the 3×3 window, except `+1` on the center. -/
def bump9 (X i j n : Nat) : Int :=
  ∑ a in Finset.range 3, ∑ b in Finset.range 3,
    if n = (i - 1 + a) * (X + 2) + (j - 1 + b) then (if a = 1 ∧ b = 1 then 1 else 2) else 0

/-- `|a - b| ≤ 1` on naturals, subtraction-free. -/
def near (a b : Nat) : Prop := a = b ∨ a = b + 1 ∨ b = a + 1

instance (a b : Nat) : Decidable (near a b) := by
  unfold near; infer_instance

/-- The interior cells as a finset, `(row, column)`. -/
def interiorCells (W H : Nat) : Finset (Nat × Nat) :=
  Finset.Ico 1 (H + 1) ×ˢ Finset.Ico 1 (W + 1)

/-- All slots of the padded grid (interior plus the one-cell border). -/
def paddedCells (W H : Nat) : Finset (Nat × Nat) :=
  Finset.range (H + 2) ×ˢ Finset.range (W + 2)

/-- The number of live cells among the interior-or-border slots of the 3×3
window centered at padded slot `(p, q)`, excluding the center: the sum of the
alive bits (packed value mod 2) of the adjacent slots. -/
def mooreCount (w : Nat → Int) (W H p q : Nat) : Int :=
  ∑ c in paddedCells W H,
    if near c.1 p ∧ near c.2 q ∧ ¬(c.1 = p ∧ c.2 = q)
    then w (c.1 * (W + 2) + c.2) % 2 else 0

/-- The number of live *interior* cells adjacent (in the 8-neighbour sense) to
the padded-grid slot `(p, q)` of grid `w`. -/
def adjAliveSum (w : Nat → Int) (W H p q : Nat) : Int :=
  ∑ c in interiorCells W H,
    if near c.1 p ∧ near c.2 q ∧ ¬(c.1 = p ∧ c.2 = q)
    then w (c.1 * (W + 2) + c.2) % 2 else 0

/-- `(p, q)` is on the one-cell dead border of the padded grid. -/
def isBorder (W H p q : Nat) : Prop :=
  p = 0 ∨ p = H + 1 ∨ q = 0 ∨ q = W + 1

/-- The grid-representation invariant: every interior slot packs its alive bit
(bit 0) with the live-neighbour count of its 3×3 window (bits 1+), and every
border slot holds exactly twice the number of its live interior neighbours
(in particular its alive bit is 0). -/
def Inv (g : Game) : Prop :=
  ∀ p q, p ≤ g.gridY + 1 → q ≤ g.gridX + 1 →
    g.worldGrid (p * (g.gridX + 2) + q) =
      2 * adjAliveSum g.worldGrid g.gridX g.gridY p q +
      (if 1 ≤ p ∧ p ≤ g.gridY ∧ 1 ≤ q ∧ q ≤ g.gridX
       then g.worldGrid (p * (g.gridX + 2) + q) % 2 else 0)

/-- The tables stored in the game are the ones `updateTables` builds from its
rule sets. -/
def tablesOk (g : Game) : Prop :=
  g.becomesAliveTable = mkBecomesAliveTable g.bRules ∧
  g.becomesDeadTable = mkBecomesDeadTable g.sRules

/-- `trans` times `bump9`: the increment cell `(i, j)` contributes at flat index `n`. -/
def cellDelta (w : Nat → Int) (bt dt : Nat → Bool) (X i j n : Nat) : Int :=
  trans w bt dt X i j * bump9 X i j n

/-- The total increment a full kernel sweep of the interior adds at flat index `n`. -/
def tickDelta (g : Game) (n : Nat) : Int :=
  ∑ c in interiorCells g.gridX g.gridY,
    cellDelta g.worldGrid g.becomesAliveTable g.becomesDeadTable g.gridX c.1 c.2 n

/-! ## Concrete instances -/

/-- A zeroed `Game` value, the state before `InitializeState` runs. -/
def game0 : Game :=
  { worldGrid := fun _ => 0, buffer := fun _ => 0, pixels := fun _ => 0,
    gridX := 0, gridY := 0, bRules := fun _ => false, sRules := fun _ => false,
    becomesAliveTable := fun _ => false, becomesDeadTable := fun _ => false }

/-- Conway birth rules `B3`. -/
def conwayB : Ruleset := Function.update (fun _ => false) 3 true

/-- Conway survival rules `S23`. -/
def conwayS : Ruleset := Function.update (Function.update (fun _ => false) 2 true) 3 true

/-- A small concrete board (4 interior rows) used to instantiate theorems. -/
def gameA : Game := { game0 with gridX := 3, gridY := 4 }

/-- A Conway game with its tables built, before board initialization. -/
def gameC : Game := updateTables { game0 with bRules := conwayB, sRules := conwayS }

/-- A 3×4 all-dead Conway board (threshold 0: no draw is ever below it). -/
def initC : Game := (InitializeBoard gameC 3 4 0 { stream := fun _ => 0, pos := 0 }).1

/-- A 3×4 all-dead board with a birth-on-0 rule (`B` true everywhere): every
interior cell of an empty board transitions up in one tick. -/
def gB0 : Game := updateTables { game0 with gridX := 3, gridY := 4, bRules := fun _ => true }

/-- A draw stream whose sub-threshold draws (for `thr = 1`) are exactly at
positions 1, 6 and 11: in the row-major fill of a 5×5 board these are the
cells (1,2), (2,2), (3,2) — the vertical blinker. -/
def blinkStream : Nat → Nat := fun k => if k = 1 ∨ k = 6 ∨ k = 11 then 0 else 1

/-- The 5×5 Conway board initialized to the vertical blinker, following the
Go start-up flow (`InitializeState` then `InitializeBoard`). -/
def blinkGame : Game :=
  (InitializeBoard (InitializeState game0 blinkStream).1 5 5 1
    (InitializeState game0 blinkStream).2).1

/-! ## Kernel fold lemmas -/

lemma bump_apply (b : Nat → Int) (n : Nat) (d : Int) (m : Nat) :
    bump b n d m = b m + (if m = n then d else 0) := by
  rw [bump, Function.update_apply]
  split <;> simp_all

@[simp] lemma applyCell_worldGrid (g : Game) (i j : Nat) :
    (applyCell g i j).worldGrid = g.worldGrid := by
  rw [applyCell]; split
  · rfl
  · split <;> rfl

@[simp] lemma applyCell_gridX (g : Game) (i j : Nat) :
    (applyCell g i j).gridX = g.gridX := by
  rw [applyCell]; split
  · rfl
  · split <;> rfl

@[simp] lemma applyCell_gridY (g : Game) (i j : Nat) :
    (applyCell g i j).gridY = g.gridY := by
  rw [applyCell]; split
  · rfl
  · split <;> rfl

@[simp] lemma applyCell_becomesAliveTable (g : Game) (i j : Nat) :
    (applyCell g i j).becomesAliveTable = g.becomesAliveTable := by
  rw [applyCell]; split
  · rfl
  · split <;> rfl

@[simp] lemma applyCell_becomesDeadTable (g : Game) (i j : Nat) :
    (applyCell g i j).becomesDeadTable = g.becomesDeadTable := by
  rw [applyCell]; split
  · rfl
  · split <;> rfl

@[simp] lemma applyCell_bRules (g : Game) (i j : Nat) :
    (applyCell g i j).bRules = g.bRules := by
  rw [applyCell]; split
  · rfl
  · split <;> rfl

@[simp] lemma applyCell_sRules (g : Game) (i j : Nat) :
    (applyCell g i j).sRules = g.sRules := by
  rw [applyCell]; split
  · rfl
  · split <;> rfl

lemma applyCell_buffer (g : Game) (i j : Nat) (hi : 1 ≤ i) (hj : 1 ≤ j) (n : Nat) :
    (applyCell g i j).buffer n = g.buffer n +
      trans g.worldGrid g.becomesAliveTable g.becomesDeadTable g.gridX i j *
        bump9 g.gridX i j n := by
  obtain ⟨i', rfl⟩ : ∃ i', i = i' + 1 := ⟨i - 1, by omega⟩
  obtain ⟨j', rfl⟩ : ∃ j', j = j' + 1 := ⟨j - 1, by omega⟩
  rw [applyCell, trans, bump9]
  simp only [Finset.sum_range_succ, Finset.sum_range_zero, Nat.add_sub_cancel]
  split
  · simp only [bump_apply]
    norm_num [← Nat.add_assoc]
    simp only [show ∀ x : Nat, x + 1 + 1 = x + 2 from fun _ => rfl]
    ring_nf
  · split
    · simp only [bump_apply]
      norm_num [← Nat.add_assoc]
      simp only [show ∀ x : Nat, x + 1 + 1 = x + 2 from fun _ => rfl,
        apply_ite (fun z : Int => -z)]
      norm_num
      ring_nf
    · simp

@[simp] lemma applyCells_worldGrid (L : List (Nat × Nat)) (g : Game) :
    (applyCells g L).worldGrid = g.worldGrid := by
  induction L generalizing g with
  | nil => rfl
  | cons c L ih => rw [applyCells, List.foldl_cons, ← applyCells, ih]; simp

@[simp] lemma applyCells_gridX (L : List (Nat × Nat)) (g : Game) :
    (applyCells g L).gridX = g.gridX := by
  induction L generalizing g with
  | nil => rfl
  | cons c L ih => rw [applyCells, List.foldl_cons, ← applyCells, ih]; simp

@[simp] lemma applyCells_gridY (L : List (Nat × Nat)) (g : Game) :
    (applyCells g L).gridY = g.gridY := by
  induction L generalizing g with
  | nil => rfl
  | cons c L ih => rw [applyCells, List.foldl_cons, ← applyCells, ih]; simp

@[simp] lemma applyCells_becomesAliveTable (L : List (Nat × Nat)) (g : Game) :
    (applyCells g L).becomesAliveTable = g.becomesAliveTable := by
  induction L generalizing g with
  | nil => rfl
  | cons c L ih => rw [applyCells, List.foldl_cons, ← applyCells, ih]; simp

@[simp] lemma applyCells_becomesDeadTable (L : List (Nat × Nat)) (g : Game) :
    (applyCells g L).becomesDeadTable = g.becomesDeadTable := by
  induction L generalizing g with
  | nil => rfl
  | cons c L ih => rw [applyCells, List.foldl_cons, ← applyCells, ih]; simp

@[simp] lemma applyCells_bRules (L : List (Nat × Nat)) (g : Game) :
    (applyCells g L).bRules = g.bRules := by
  induction L generalizing g with
  | nil => rfl
  | cons c L ih => rw [applyCells, List.foldl_cons, ← applyCells, ih]; simp

@[simp] lemma applyCells_sRules (L : List (Nat × Nat)) (g : Game) :
    (applyCells g L).sRules = g.sRules := by
  induction L generalizing g with
  | nil => rfl
  | cons c L ih => rw [applyCells, List.foldl_cons, ← applyCells, ih]; simp

lemma applyCells_buffer (L : List (Nat × Nat)) (g : Game)
    (hL : ∀ c ∈ L, 1 ≤ c.1 ∧ 1 ≤ c.2) (n : Nat) :
    (applyCells g L).buffer n = g.buffer n +
      (L.map (fun c =>
        cellDelta g.worldGrid g.becomesAliveTable g.becomesDeadTable g.gridX c.1 c.2 n)).sum := by
  induction L generalizing g with
  | nil => simp [applyCells]
  | cons c L ih =>
    have hc := hL c (by simp)
    rw [applyCells, List.foldl_cons, ← applyCells,
      ih _ (fun d hd => hL d (List.mem_cons_of_mem _ hd))]
    simp only [applyCell_worldGrid, applyCell_becomesAliveTable, applyCell_becomesDeadTable,
      applyCell_gridX, List.map_cons, List.sum_cons,
      applyCell_buffer g c.1 c.2 hc.1 hc.2 n, cellDelta]
    ring

lemma sum_map_range {M : Type} [AddCommMonoid M] (n : Nat) (f : Nat → M) :
    ((List.range n).map f).sum = ∑ k in Finset.range n, f k := by
  induction n with
  | zero => simp
  | succ m ih =>
    rw [List.range_succ, List.map_append, List.sum_append, Finset.sum_range_succ, ih]; simp

lemma rangeCells_map_sum {M : Type} [AddCommMonoid M] (X a b : Nat) (f : Nat × Nat → M) :
    ((rangeCells X a b).map f).sum =
      ∑ i in Finset.Ico a (b + 1), ∑ j in Finset.Ico 1 (X + 1), f (i, j) := by
  rw [rangeCells, List.map_flatten, List.map_map]
  rw [List.sum_flatten, List.map_map]
  rw [sum_map_range, Finset.sum_Ico_eq_sum_range]
  apply Finset.sum_congr rfl
  intro k _
  simp only [Function.comp, rowCells, List.map_map, sum_map_range,
    Finset.sum_Ico_eq_sum_range]
  simp [Nat.add_comm]

lemma rangeCells_mem (X a b : Nat) (ha : 1 ≤ a) (c : Nat × Nat) (hc : c ∈ rangeCells X a b) :
    1 ≤ c.1 ∧ 1 ≤ c.2 ∧ c.1 ≤ b ∧ a ≤ c.1 ∧ c.2 ≤ X := by
  rw [rangeCells] at hc
  rw [List.mem_flatten] at hc
  obtain ⟨s, hs, hcs⟩ := hc
  rw [List.mem_map] at hs
  obtain ⟨k, hk, rfl⟩ := hs
  rw [List.mem_range] at hk
  rw [rowCells, List.mem_map] at hcs
  obtain ⟨j0, hj0, rfl⟩ := hcs
  rw [List.mem_range] at hj0
  refine ⟨by omega, by omega, by omega, by omega, by omega⟩

@[simp] lemma updateRange_worldGrid (g : Game) (a b : Nat) :
    (updateRange g a b).worldGrid = g.worldGrid := by
  rw [updateRange]; simp

@[simp] lemma updateRange_gridX (g : Game) (a b : Nat) :
    (updateRange g a b).gridX = g.gridX := by
  rw [updateRange]; simp

@[simp] lemma updateRange_gridY (g : Game) (a b : Nat) :
    (updateRange g a b).gridY = g.gridY := by
  rw [updateRange]; simp

@[simp] lemma updateRange_becomesAliveTable (g : Game) (a b : Nat) :
    (updateRange g a b).becomesAliveTable = g.becomesAliveTable := by
  rw [updateRange]; simp

@[simp] lemma updateRange_becomesDeadTable (g : Game) (a b : Nat) :
    (updateRange g a b).becomesDeadTable = g.becomesDeadTable := by
  rw [updateRange]; simp

lemma updateRange_buffer (g : Game) (a b : Nat) (ha : 1 ≤ a) (n : Nat) :
    (updateRange g a b).buffer n = g.buffer n +
      ∑ i in Finset.Ico a (b + 1), ∑ j in Finset.Ico 1 (g.gridX + 1),
        cellDelta g.worldGrid g.becomesAliveTable g.becomesDeadTable g.gridX i j n := by
  rw [updateRange, applyCells_buffer _ _ (fun c hc => by
    have := rangeCells_mem g.gridX a b ha c hc
    exact ⟨this.1, this.2.1⟩)]
  rw [rangeCells_map_sum]

/-! ## Partition arithmetic -/

lemma numParts_pos (P H : Nat) (hH : 4 ≤ H) (hP : 1 ≤ P) : 1 ≤ numParts P H := by
  rw [numParts]
  have : 1 ≤ H / 4 := Nat.one_le_div_iff (by norm_num) |>.2 hH
  split <;> omega

lemma numParts_le (P H : Nat) : numParts P H ≤ H / 4 ∨ numParts P H = P := by
  rw [numParts]; split
  · exact Or.inl le_rfl
  · exact Or.inr rfl

lemma numParts_le_div (P H : Nat) (hP : 1 ≤ P) : numParts P H ≤ H / 4 := by
  rw [numParts]; split <;> omega

lemma rowsPerPart_ge (P H : Nat) (hH : 4 ≤ H) (hP : 1 ≤ P) :
    4 ≤ H / numParts P H := by
  have hm1 := numParts_pos P H hH hP
  have hm2 := numParts_le_div P H hP
  rw [Nat.le_div_iff_mul_le (by omega)]
  calc 4 * numParts P H ≤ 4 * (H / 4) := by omega
    _ = H / 4 * 4 := by ring
    _ ≤ H := Nat.div_mul_le_self H 4

lemma numParts_mul_le (P H : Nat) (hH : 4 ≤ H) (hP : 1 ≤ P) :
    numParts P H * (H / numParts P H) ≤ H := by
  have := Nat.div_mul_le_self H (numParts P H)
  calc numParts P H * (H / numParts P H) = H / numParts P H * numParts P H := by ring
    _ ≤ H := Nat.div_mul_le_self H (numParts P H)

/-- The chained pair sums: interior range of part `i` followed by the seam band
above it, for the first `k` parts, glue into one interval. -/
lemma chainAux {M : Type} [AddCommMonoid M] (f : Nat → M) (rpp : Nat) (hr : 2 ≤ rpp) :
    ∀ k : Nat,
      (∑ i in Finset.range k,
        ((∑ r in Finset.Ico (i * rpp + 2) ((i + 1) * rpp), f r) +
          ∑ r in Finset.Ico ((i + 1) * rpp) ((i + 1) * rpp + 2), f r)) =
      ∑ r in Finset.Ico 2 (k * rpp + 2), f r := by
  intro k
  induction k with
  | zero => simp
  | succ k ih =>
    rw [Finset.sum_range_succ, ih]
    rw [Finset.sum_Ico_consecutive f (by nlinarith) (by nlinarith),
      Finset.sum_Ico_consecutive f (by nlinarith) (by nlinarith)]

/-- Decomposition of the rows `1..H` into the row intervals visited by the
tasks of `updateBoard`: the `m` interior passes, the two outer edge rows, and
the `m - 1` seam bands, in any order, sum to the full interior. -/
lemma taskSum {M : Type} [AddCommMonoid M] (f : Nat → M) (H P : Nat)
    (hH : 4 ≤ H) (hP : 1 ≤ P) :
    (∑ i in Finset.range (numParts P H),
      ∑ r in Finset.Ico (i * (H / numParts P H) + 2)
        (if i = numParts P H - 1 then H else (i + 1) * (H / numParts P H)), f r)
    + (∑ r in Finset.Ico 1 2, f r) + (∑ r in Finset.Ico H (H + 1), f r)
    + (∑ i0 in Finset.range (numParts P H - 1),
        ∑ r in Finset.Ico ((i0 + 1) * (H / numParts P H))
          ((i0 + 1) * (H / numParts P H) + 2), f r)
    = ∑ r in Finset.Ico 1 (H + 1), f r := by
  obtain ⟨m', hm'⟩ : ∃ m', numParts P H = m' + 1 :=
    ⟨numParts P H - 1, by have := numParts_pos P H hH hP; omega⟩
  have hr := rowsPerPart_ge P H hH hP
  have hmul := numParts_mul_le P H hH hP
  set rpp := H / numParts P H with hrpp
  rw [hm'] at hmul ⊢
  simp only [Nat.add_sub_cancel]
  have hlast : m' * rpp + 2 ≤ H := by nlinarith
  rw [Finset.sum_range_succ]
  simp only [if_pos rfl]
  rw [Finset.sum_congr rfl (fun i hi => by
    rw [if_neg (by rw [Finset.mem_range] at hi; omega)])]
  have key := chainAux f rpp (by omega) m'
  calc
    (∑ i in Finset.range m', ∑ r in Finset.Ico (i * rpp + 2) ((i + 1) * rpp), f r)
        + (∑ r in Finset.Ico (m' * rpp + 2) H, f r)
        + (∑ r in Finset.Ico 1 2, f r) + (∑ r in Finset.Ico H (H + 1), f r)
        + (∑ i0 in Finset.range m',
            ∑ r in Finset.Ico ((i0 + 1) * rpp) ((i0 + 1) * rpp + 2), f r)
      = ((∑ i in Finset.range m',
            ((∑ r in Finset.Ico (i * rpp + 2) ((i + 1) * rpp), f r) +
              ∑ r in Finset.Ico ((i + 1) * rpp) ((i + 1) * rpp + 2), f r))
          + (∑ r in Finset.Ico (m' * rpp + 2) H, f r))
        + (∑ r in Finset.Ico 1 2, f r) + (∑ r in Finset.Ico H (H + 1), f r) := by
      rw [Finset.sum_add_distrib]; abel
    _ = ((∑ r in Finset.Ico 2 (m' * rpp + 2), f r)
          + (∑ r in Finset.Ico (m' * rpp + 2) H, f r))
        + (∑ r in Finset.Ico 1 2, f r) + (∑ r in Finset.Ico H (H + 1), f r) := by
      rw [key]
    _ = (∑ r in Finset.Ico 1 2, f r) + ((∑ r in Finset.Ico 2 H, f r)
          + (∑ r in Finset.Ico H (H + 1), f r)) := by
      rw [Finset.sum_Ico_consecutive f (by omega) hlast]; abel
    _ = ∑ r in Finset.Ico 1 (H + 1), f r := by
      rw [Finset.sum_Ico_consecutive f (by omega) (by omega),
        Finset.sum_Ico_consecutive f (by omega) (by omega)]

/-! ## The generation-advance formula -/

lemma foldl_updateRange_worldGrid (L : List Nat) (g : Game) (lo hi : Nat → Nat) :
    (L.foldl (fun gm i => updateRange gm (lo i) (hi i)) g).worldGrid = g.worldGrid := by
  induction L generalizing g with
  | nil => rfl
  | cons a L ih => rw [List.foldl_cons, ih]; simp

lemma foldl_updateRange_gridX (L : List Nat) (g : Game) (lo hi : Nat → Nat) :
    (L.foldl (fun gm i => updateRange gm (lo i) (hi i)) g).gridX = g.gridX := by
  induction L generalizing g with
  | nil => rfl
  | cons a L ih => rw [List.foldl_cons, ih]; simp

lemma foldl_updateRange_gridY (L : List Nat) (g : Game) (lo hi : Nat → Nat) :
    (L.foldl (fun gm i => updateRange gm (lo i) (hi i)) g).gridY = g.gridY := by
  induction L generalizing g with
  | nil => rfl
  | cons a L ih => rw [List.foldl_cons, ih]; simp

lemma foldl_updateRange_becomesAliveTable (L : List Nat) (g : Game) (lo hi : Nat → Nat) :
    (L.foldl (fun gm i => updateRange gm (lo i) (hi i)) g).becomesAliveTable =
      g.becomesAliveTable := by
  induction L generalizing g with
  | nil => rfl
  | cons a L ih => rw [List.foldl_cons, ih]; simp

lemma foldl_updateRange_becomesDeadTable (L : List Nat) (g : Game) (lo hi : Nat → Nat) :
    (L.foldl (fun gm i => updateRange gm (lo i) (hi i)) g).becomesDeadTable =
      g.becomesDeadTable := by
  induction L generalizing g with
  | nil => rfl
  | cons a L ih => rw [List.foldl_cons, ih]; simp

lemma foldl_updateRange_buffer (L : List Nat) (g : Game) (lo hi : Nat → Nat)
    (hlo : ∀ i ∈ L, 1 ≤ lo i) (n : Nat) :
    (L.foldl (fun gm i => updateRange gm (lo i) (hi i)) g).buffer n =
      g.buffer n + (L.map (fun i => ∑ r in Finset.Ico (lo i) (hi i + 1),
        ∑ j in Finset.Ico 1 (g.gridX + 1),
          cellDelta g.worldGrid g.becomesAliveTable g.becomesDeadTable g.gridX r j n)).sum := by
  induction L generalizing g with
  | nil => simp
  | cons a L ih =>
    rw [List.foldl_cons, ih _ (fun i hi => hlo i (List.mem_cons_of_mem _ hi))]
    rw [updateRange_buffer g (lo a) (hi a) (hlo a (by simp)) n]
    simp only [updateRange_worldGrid, updateRange_gridX, updateRange_becomesAliveTable,
      updateRange_becomesDeadTable, List.map_cons, List.sum_cons]
    ring

lemma updateBoard_worldGrid (g : Game) (P : Nat) (hH : 4 ≤ g.gridY) (hP : 1 ≤ P) (n : Nat) :
    (updateBoard g P).worldGrid n = g.worldGrid n + tickDelta g n := by
  have hm1 := numParts_pos P g.gridY hH hP
  have hr := rowsPerPart_ge P g.gridY hH hP
  rw [updateBoard]
  simp only []
  set m := numParts P g.gridY with hm
  set rpp := g.gridY / m with hrpp
  set g1 : Game := { g with buffer := g.worldGrid } with hg1
  set g2 := (List.range m).foldl (fun gm i =>
      updateRange gm (1 + i * rpp + 1) ((if i = m - 1 then g.gridY else 1 + i * rpp + rpp - 1) - 1)) g1 with hg2
  set g3 := updateRange g2 1 1 with hg3
  set g4 := updateRange g3 g.gridY g.gridY with hg4
  set g5 := (List.range (m - 1)).foldl (fun gm i0 =>
      updateRange gm (1 + (i0 + 1) * rpp - 1) (1 + (i0 + 1) * rpp)) g4 with hg5
  show g5.buffer n = g.worldGrid n + tickDelta g n
  have hg2W : g2.worldGrid = g.worldGrid := by rw [hg2]; exact foldl_updateRange_worldGrid ..
  have hg2X : g2.gridX = g.gridX := by rw [hg2]; exact foldl_updateRange_gridX ..
  have hg2A : g2.becomesAliveTable = g.becomesAliveTable := by
    rw [hg2]; exact foldl_updateRange_becomesAliveTable ..
  have hg2D : g2.becomesDeadTable = g.becomesDeadTable := by
    rw [hg2]; exact foldl_updateRange_becomesDeadTable ..
  have hg4W : g4.worldGrid = g.worldGrid := by rw [hg4, hg3]; simp [hg2W]
  have hg4X : g4.gridX = g.gridX := by rw [hg4, hg3]; simp [hg2X]
  have hg4A : g4.becomesAliveTable = g.becomesAliveTable := by rw [hg4, hg3]; simp [hg2A]
  have hg4D : g4.becomesDeadTable = g.becomesDeadTable := by rw [hg4, hg3]; simp [hg2D]
  have e2 : g2.buffer n = g.worldGrid n +
      (((List.range m).map (fun i => ∑ r in Finset.Ico (1 + i * rpp + 1)
          ((if i = m - 1 then g.gridY else 1 + i * rpp + rpp - 1) - 1 + 1),
        ∑ j in Finset.Ico 1 (g.gridX + 1),
          cellDelta g.worldGrid g.becomesAliveTable g.becomesDeadTable g.gridX r j n)).sum) := by
    rw [hg2, foldl_updateRange_buffer _ _ _ _ (fun i _ => by omega) n]
  have e3 : g3.buffer n = g2.buffer n +
      ∑ r in Finset.Ico 1 2, ∑ j in Finset.Ico 1 (g.gridX + 1),
        cellDelta g.worldGrid g.becomesAliveTable g.becomesDeadTable g.gridX r j n := by
    rw [hg3, updateRange_buffer g2 1 1 le_rfl n, hg2W, hg2X, hg2A, hg2D]
  have e4 : g4.buffer n = g3.buffer n +
      ∑ r in Finset.Ico g.gridY (g.gridY + 1), ∑ j in Finset.Ico 1 (g.gridX + 1),
        cellDelta g.worldGrid g.becomesAliveTable g.becomesDeadTable g.gridX r j n := by
    rw [hg4, updateRange_buffer g3 g.gridY g.gridY (by omega) n, hg3]
    simp [hg2W, hg2X, hg2A, hg2D]
  have e5 : g5.buffer n = g4.buffer n +
      (((List.range (m - 1)).map (fun i0 => ∑ r in Finset.Ico (1 + (i0 + 1) * rpp - 1)
          (1 + (i0 + 1) * rpp + 1),
        ∑ j in Finset.Ico 1 (g.gridX + 1),
          cellDelta g.worldGrid g.becomesAliveTable g.becomesDeadTable g.gridX r j n)).sum) := by
    rw [hg5, foldl_updateRange_buffer _ _ _ _ (fun i0 _ => by
      have h1 : 0 < (i0 + 1) * rpp := Nat.mul_pos (by omega) (by omega)
      omega) n]
    rw [hg4W, hg4X, hg4A, hg4D]
  rw [e5, e4, e3, e2]
  rw [sum_map_range, sum_map_range]
  have hIcoIlo : ∀ i : Nat, 1 + i * rpp + 1 = i * rpp + 2 := fun i => by omega
  have hIcoIhi : ∀ i : Nat, (if i = m - 1 then g.gridY else 1 + i * rpp + rpp - 1) - 1 + 1 =
      if i = m - 1 then g.gridY else (i + 1) * rpp := by
    intro i
    split
    · omega
    · have : (i + 1) * rpp = i * rpp + rpp := by ring
      omega
  have hSlo : ∀ i0 : Nat, 1 + (i0 + 1) * rpp - 1 = (i0 + 1) * rpp := fun i0 => by omega
  have hShi : ∀ i0 : Nat, 1 + (i0 + 1) * rpp + 1 = (i0 + 1) * rpp + 2 := fun i0 => by omega
  simp only [hIcoIlo, hIcoIhi, hSlo, hShi]
  have := taskSum (fun r => ∑ j in Finset.Ico 1 (g.gridX + 1),
      cellDelta g.worldGrid g.becomesAliveTable g.becomesDeadTable g.gridX r j n)
    g.gridY P hH hP
  rw [← hm, ← hrpp] at this
  rw [tickDelta, interiorCells, Finset.sum_product]
  rw [← this]
  ring

lemma updateBoardSerial_worldGrid (g : Game) (n : Nat) :
    (updateBoardSerial g).worldGrid n = g.worldGrid n + tickDelta g n := by
  rw [updateBoardSerial]
  simp only []
  show (updateRange { g with buffer := g.worldGrid } 1 g.gridY).buffer n = _
  rw [updateRange_buffer _ 1 g.gridY le_rfl n]
  rw [tickDelta, interiorCells, Finset.sum_product]

lemma updateBoard_gridX (g : Game) (P : Nat) : (updateBoard g P).gridX = g.gridX := by
  rw [updateBoard]
  simp only [foldl_updateRange_gridX, updateRange_gridX]

lemma updateBoard_gridY (g : Game) (P : Nat) : (updateBoard g P).gridY = g.gridY := by
  rw [updateBoard]
  simp only [foldl_updateRange_gridY, updateRange_gridY]

lemma updateBoard_becomesAliveTable (g : Game) (P : Nat) :
    (updateBoard g P).becomesAliveTable = g.becomesAliveTable := by
  rw [updateBoard]
  simp only [foldl_updateRange_becomesAliveTable, updateRange_becomesAliveTable]

lemma updateBoard_becomesDeadTable (g : Game) (P : Nat) :
    (updateBoard g P).becomesDeadTable = g.becomesDeadTable := by
  rw [updateBoard]
  simp only [foldl_updateRange_becomesDeadTable, updateRange_becomesDeadTable]

lemma updateBoardSerial_gridX (g : Game) : (updateBoardSerial g).gridX = g.gridX := by
  rw [updateBoardSerial]; simp

lemma updateBoardSerial_gridY (g : Game) : (updateBoardSerial g).gridY = g.gridY := by
  rw [updateBoardSerial]; simp

lemma updateBoardSerial_becomesAliveTable (g : Game) :
    (updateBoardSerial g).becomesAliveTable = g.becomesAliveTable := by
  rw [updateBoardSerial]; simp

lemma updateBoardSerial_becomesDeadTable (g : Game) :
    (updateBoardSerial g).becomesDeadTable = g.becomesDeadTable := by
  rw [updateBoardSerial]; simp

/-- The fields that determine the next grid state agree. -/
def sameCore (g g' : Game) : Prop :=
  g.worldGrid = g'.worldGrid ∧ g.gridX = g'.gridX ∧ g.gridY = g'.gridY ∧
  g.becomesAliveTable = g'.becomesAliveTable ∧ g.becomesDeadTable = g'.becomesDeadTable

lemma tickDelta_congr (g g' : Game) (h : sameCore g g') : tickDelta g = tickDelta g' := by
  obtain ⟨h1, h2, h3, h4, h5⟩ := h
  funext n
  rw [tickDelta, tickDelta, h1, h2, h3, h4, h5]

lemma step_sameCore (g g' : Game) (P : Nat) (h : sameCore g g')
    (hH : 4 ≤ g.gridY) (hP : 1 ≤ P) :
    sameCore (updateBoard g P) (updateBoardSerial g') := by
  refine ⟨?_, ?_, ?_, ?_, ?_⟩
  · funext n
    rw [updateBoard_worldGrid g P hH hP n, updateBoardSerial_worldGrid g' n, h.1,
      tickDelta_congr g g' h]
  · rw [updateBoard_gridX, updateBoardSerial_gridX, h.2.1]
  · rw [updateBoard_gridY, updateBoardSerial_gridY, h.2.2.1]
  · rw [updateBoard_becomesAliveTable, updateBoardSerial_becomesAliveTable, h.2.2.2.1]
  · rw [updateBoard_becomesDeadTable, updateBoardSerial_becomesDeadTable, h.2.2.2.2]

lemma iterate_updateBoard_gridY (g : Game) (P N : Nat) :
    ((fun h => updateBoard h P)^[N] g).gridY = g.gridY := by
  induction N with
  | zero => rfl
  | succ k ih => rw [Function.iterate_succ_apply', updateBoard_gridY, ih]

lemma iterate_sameCore (g : Game) (P N : Nat) (hH : 4 ≤ g.gridY) (hP : 1 ≤ P) :
    sameCore ((fun h => updateBoard h P)^[N] g) (updateBoardSerial^[N] g) := by
  induction N with
  | zero => exact ⟨rfl, rfl, rfl, rfl, rfl⟩
  | succ k ih =>
    rw [Function.iterate_succ_apply', Function.iterate_succ_apply']
    exact step_sameCore _ _ P ih (by rw [iterate_updateBoard_gridY]; exact hH) hP

/-! ## The window view of the per-tick increments -/

lemma idx_inj (X p q u v : Nat) (hq : q < X + 2) (hv : v < X + 2)
    (h : p * (X + 2) + q = u * (X + 2) + v) : p = u ∧ q = v := by
  rcases Nat.lt_trichotomy p u with hlt | heq | hgt
  · exfalso
    have h2 : (p + 1) * (X + 2) ≤ u * (X + 2) := Nat.mul_le_mul_right (X + 2) hlt
    nlinarith
  · subst heq
    exact ⟨rfl, Nat.add_left_cancel h⟩
  · exfalso
    have h2 : (u + 1) * (X + 2) ≤ p * (X + 2) := Nat.mul_le_mul_right (X + 2) hgt
    nlinarith

set_option maxHeartbeats 1000000 in
lemma bump9_window (X i j p q : Nat) (hi : 1 ≤ i) (hj1 : 1 ≤ j) (hjX : j ≤ X) (hq : q ≤ X + 1) :
    bump9 X i j (p * (X + 2) + q) =
      (if i = p ∧ j = q then 1 else 0) +
      2 * (if near i p ∧ near j q ∧ ¬(i = p ∧ j = q) then 1 else 0) := by
  obtain ⟨i', rfl⟩ : ∃ i', i = i' + 1 := ⟨i - 1, by omega⟩
  obtain ⟨j', rfl⟩ : ∃ j', j = j' + 1 := ⟨j - 1, by omega⟩
  have hcond : ∀ a b : Nat, b ≤ 2 →
      ((p * (X + 2) + q = (i' + a) * (X + 2) + (j' + b)) ↔ (p = i' + a ∧ q = j' + b)) := by
    intro a b hb
    constructor
    · intro h; exact idx_inj X p q (i' + a) (j' + b) (by omega) (by omega) h
    · rintro ⟨h1, h2⟩; rw [h1, h2]
  rw [bump9]
  simp only [Finset.sum_range_succ, Finset.sum_range_zero, Nat.add_sub_cancel]
  simp only [hcond 0 0 (by omega), hcond 0 1 (by omega), hcond 0 2 (by omega),
    hcond 1 0 (by omega), hcond 1 1 (by omega), hcond 1 2 (by omega),
    hcond 2 0 (by omega), hcond 2 1 (by omega), hcond 2 2 (by omega)]
  norm_num
  simp only [near]
  split_ifs <;> omega

/-! ## Characterization of the rule tables -/

lemma foldl_table_mem (p : Nat → Bool) (e : Nat → Nat) (k : Nat) (t0 : Nat → Bool) (v : Nat) :
    ((List.range k).foldl (fun t i => if p i then Function.update t (e i) true else t) t0) v
      = true ↔ t0 v = true ∨ ∃ i, i < k ∧ p i = true ∧ e i = v := by
  induction k with
  | zero => simp
  | succ m ih =>
    rw [List.range_succ, List.foldl_append, List.foldl_cons, List.foldl_nil]
    by_cases hpm : p m = true
    · simp only [if_pos hpm, Function.update_apply]
      by_cases hv : v = e m
      · simp only [if_pos hv]
        constructor
        · intro _; exact Or.inr ⟨m, by omega, hpm, hv.symm⟩
        · intro _; trivial
      · simp only [if_neg hv, ih]
        constructor
        · rintro (h | ⟨i, hi, hp2, he⟩)
          · exact Or.inl h
          · exact Or.inr ⟨i, by omega, hp2, he⟩
        · rintro (h | ⟨i, hi, hp2, he⟩)
          · exact Or.inl h
          · refine Or.inr ⟨i, ?_, hp2, he⟩
            rcases Nat.lt_succ_iff_lt_or_eq.mp hi with h' | h'
            · exact h'
            · exact absurd he.symm (by rw [h']; exact hv)
    · simp only [if_neg hpm, ih]
      constructor
      · rintro (h | ⟨i, hi, hp2, he⟩)
        · exact Or.inl h
        · exact Or.inr ⟨i, by omega, hp2, he⟩
      · rintro (h | ⟨i, hi, hp2, he⟩)
        · exact Or.inl h
        · refine Or.inr ⟨i, ?_, hp2, he⟩
          rcases Nat.lt_succ_iff_lt_or_eq.mp hi with h' | h'
          · exact h'
          · exact absurd hp2 (by rw [h']; exact hpm)

lemma mkBecomesAliveTable_iff (b : Ruleset) (v : Nat) :
    mkBecomesAliveTable b v = true ↔ ∃ i, i < 9 ∧ b i = true ∧ 2 * i = v := by
  rw [mkBecomesAliveTable, foldl_table_mem]; simp

lemma mkBecomesDeadTable_iff (s : Ruleset) (v : Nat) :
    mkBecomesDeadTable s v = true ↔ ∃ i, i < 9 ∧ s i = false ∧ 1 + 2 * i = v := by
  rw [mkBecomesDeadTable, foldl_table_mem]
  simp [Bool.not_eq_true']

lemma aliveTable_even (b : Ruleset) (v : Nat) (h : mkBecomesAliveTable b v = true) :
    v % 2 = 0 ∧ v ≤ 16 ∧ b (v / 2) = true := by
  rw [mkBecomesAliveTable_iff] at h
  obtain ⟨i, hi, hb, he⟩ := h
  have h2 : v / 2 = i := by omega
  exact ⟨by omega, by omega, by rw [h2]; exact hb⟩

lemma deadTable_odd (s : Ruleset) (v : Nat) (h : mkBecomesDeadTable s v = true) :
    v % 2 = 1 ∧ v ≤ 17 ∧ s (v / 2) = false := by
  rw [mkBecomesDeadTable_iff] at h
  obtain ⟨i, hi, hs, he⟩ := h
  have h2 : v / 2 = i := by omega
  exact ⟨by omega, by omega, by rw [h2]; exact hs⟩

lemma aliveTable_of (b : Ruleset) (v : Nat) (hv : v % 2 = 0) (hlt : v < 18)
    (hb : b (v / 2) = true) : mkBecomesAliveTable b v = true :=
  (mkBecomesAliveTable_iff b v).mpr ⟨v / 2, by omega, hb, by omega⟩

lemma deadTable_of (s : Ruleset) (v : Nat) (hv : v % 2 = 1) (hlt : v < 18)
    (hs : s (v / 2) = false) : mkBecomesDeadTable s v = true :=
  (mkBecomesDeadTable_iff s v).mpr ⟨v / 2, by omega, hs, by omega⟩

lemma mkBecomesAliveTable_eq (b : Ruleset) (v : Nat) (hv : v < 18) :
    mkBecomesAliveTable b v = (decide (v % 2 = 0) && b (v / 2)) := by
  by_cases h : mkBecomesAliveTable b v = true
  · obtain ⟨he, _, hb⟩ := aliveTable_even b v h
    rw [h, hb, he]; simp
  · rw [Bool.not_eq_true] at h
    rw [h]
    by_cases hp : v % 2 = 0
    · by_cases hb : b (v / 2) = true
      · exact absurd (aliveTable_of b v hp hv hb) (by rw [h]; simp)
      · rw [Bool.not_eq_true] at hb; rw [hb]; simp
    · simp [hp]

lemma mkBecomesDeadTable_eq (s : Ruleset) (v : Nat) (hv : v < 18) :
    mkBecomesDeadTable s v = (decide (v % 2 = 1) && !(s (v / 2))) := by
  by_cases h : mkBecomesDeadTable s v = true
  · obtain ⟨he, _, hs⟩ := deadTable_odd s v h
    rw [h, hs, he]; simp
  · rw [Bool.not_eq_true] at h
    rw [h]
    by_cases hp : v % 2 = 1
    · by_cases hs : s (v / 2) = false
      · exact absurd (deadTable_of s v hp hv hs) (by rw [h]; simp)
      · have hs' : s (v / 2) = true := by
          rcases Bool.eq_false_or_eq_true (s (v / 2)) with h' | h'
          · exact h'
          · exact absurd h' hs
        rw [hs']; simp
    · simp [decide_eq_false hp]

/-! ## The transition function under valid tables -/

lemma trans_eq_rule (w : Nat → Int) (b s : Ruleset) (X i j : Nat)
    (h0 : 0 ≤ w (i * (X + 2) + j)) (h17 : w (i * (X + 2) + j) ≤ 17) :
    trans w (mkBecomesAliveTable b) (mkBecomesDeadTable s) X i j =
      (if w (i * (X + 2) + j) % 2 = 0
       then (if b ((w (i * (X + 2) + j)).toNat / 2) then 1 else 0)
       else (if s ((w (i * (X + 2) + j)).toNat / 2) then 0 else -1)) := by
  simp only [trans]
  set val := w (i * (X + 2) + j) with hval
  set v := val.toNat with hv
  have hv18 : v < 18 := by omega
  by_cases hp : val % 2 = 0
  · have hveven : v % 2 = 0 := by omega
    have hdf : ¬(mkBecomesDeadTable s v = true) := by
      intro hc
      have := (deadTable_odd s v hc).1
      omega
    by_cases hb : b (v / 2) = true
    · have hat : mkBecomesAliveTable b v = true := aliveTable_of b v hveven hv18 hb
      rw [if_pos hat, if_pos hp, if_pos hb]
    · have haf : ¬(mkBecomesAliveTable b v = true) := by
        intro hc
        exact hb (aliveTable_even b v hc).2.2
      rw [if_neg haf, if_neg hdf, if_pos hp, if_neg hb]
  · have hvodd : v % 2 = 1 := by omega
    have haf : ¬(mkBecomesAliveTable b v = true) := by
      intro hc
      have := (aliveTable_even b v hc).1
      omega
    by_cases hs : s (v / 2) = true
    · have hdf : ¬(mkBecomesDeadTable s v = true) := by
        intro hc
        rw [(deadTable_odd s v hc).2.2] at hs
        exact Bool.false_ne_true hs
      rw [if_neg haf, if_neg hdf, if_neg hp, if_pos hs]
    · have hsf : s (v / 2) = false := by
        rcases Bool.eq_false_or_eq_true (s (v / 2)) with h' | h'
        · exact absurd h' hs
        · exact h'
      have hdt : mkBecomesDeadTable s v = true := deadTable_of s v hvodd hv18 hsf
      rw [if_neg haf, if_pos hdt, if_neg hp, if_neg hs]

lemma bit_plus_trans (w : Nat → Int) (b s : Ruleset) (X i j : Nat)
    (h0 : 0 ≤ w (i * (X + 2) + j)) (h17 : w (i * (X + 2) + j) ≤ 17) :
    w (i * (X + 2) + j) % 2 + trans w (mkBecomesAliveTable b) (mkBecomesDeadTable s) X i j =
      (if w (i * (X + 2) + j) % 2 = 0
       then (if b ((w (i * (X + 2) + j)).toNat / 2) then 1 else 0)
       else (if s ((w (i * (X + 2) + j)).toNat / 2) then 1 else 0)) := by
  rw [trans_eq_rule w b s X i j h0 h17]
  split_ifs <;> omega

/-! ## Invariant preservation -/

lemma mem_interiorCells (W H : Nat) (c : Nat × Nat) :
    c ∈ interiorCells W H ↔ 1 ≤ c.1 ∧ c.1 ≤ H ∧ 1 ≤ c.2 ∧ c.2 ≤ W := by
  rw [interiorCells, Finset.mem_product, Finset.mem_Ico, Finset.mem_Ico]
  omega

/-- The sum of the transitions of the interior cells adjacent to padded slot `(p, q)`. -/
def nbrTransSum (g : Game) (p q : Nat) : Int :=
  ∑ c in interiorCells g.gridX g.gridY,
    if near c.1 p ∧ near c.2 q ∧ ¬(c.1 = p ∧ c.2 = q)
    then trans g.worldGrid g.becomesAliveTable g.becomesDeadTable g.gridX c.1 c.2 else 0

lemma tickDelta_window (g : Game) (p q : Nat) (hq : q ≤ g.gridX + 1) :
    tickDelta g (p * (g.gridX + 2) + q) =
      (if 1 ≤ p ∧ p ≤ g.gridY ∧ 1 ≤ q ∧ q ≤ g.gridX
        then trans g.worldGrid g.becomesAliveTable g.becomesDeadTable g.gridX p q else 0)
      + 2 * nbrTransSum g p q := by
  rw [tickDelta, nbrTransSum]
  have step1 : ∀ c ∈ interiorCells g.gridX g.gridY,
      cellDelta g.worldGrid g.becomesAliveTable g.becomesDeadTable g.gridX c.1 c.2
        (p * (g.gridX + 2) + q) =
      (if c = (p, q)
        then trans g.worldGrid g.becomesAliveTable g.becomesDeadTable g.gridX c.1 c.2 else 0)
      + 2 * (if near c.1 p ∧ near c.2 q ∧ ¬(c.1 = p ∧ c.2 = q)
          then trans g.worldGrid g.becomesAliveTable g.becomesDeadTable g.gridX c.1 c.2 else 0) := by
    intro c hc
    rw [mem_interiorCells] at hc
    rw [cellDelta, bump9_window g.gridX c.1 c.2 p q hc.1 hc.2.2.1 hc.2.2.2 hq]
    by_cases hA : c.1 = p ∧ c.2 = q
    · have hA' : c = (p, q) := Prod.ext_iff.mpr hA
      have hB : ¬(near c.1 p ∧ near c.2 q ∧ ¬(c.1 = p ∧ c.2 = q)) := fun hB => hB.2.2 hA
      simp only [if_pos hA, if_pos hA', if_neg hB]
      ring
    · have hA' : ¬(c = (p, q)) := fun h => hA (Prod.ext_iff.mp h)
      simp only [if_neg hA, if_neg hA']
      by_cases hB : near c.1 p ∧ near c.2 q ∧ ¬(c.1 = p ∧ c.2 = q)
      · simp only [if_pos hB]; ring
      · simp only [if_neg hB]; ring
  rw [Finset.sum_congr rfl step1, Finset.sum_add_distrib]
  congr 1
  · rw [Finset.sum_ite_eq' (interiorCells g.gridX g.gridY) (p, q)]
    by_cases hm : (p, q) ∈ interiorCells g.gridX g.gridY
    · rw [if_pos hm]
      rw [mem_interiorCells] at hm
      rw [if_pos ⟨hm.1, hm.2.1, hm.2.2.1, hm.2.2.2⟩]
    · rw [if_neg hm]
      rw [mem_interiorCells] at hm
      rw [if_neg (fun h => hm ⟨h.1, h.2.1, h.2.2.1, h.2.2.2⟩)]
  · rw [Finset.mul_sum]

lemma adjAliveSum_nonneg (w : Nat → Int) (W H p q : Nat) : 0 ≤ adjAliveSum w W H p q := by
  rw [adjAliveSum]
  apply Finset.sum_nonneg
  intro c _
  split_ifs
  · omega
  · exact le_refl 0

lemma adjAliveSum_le (w : Nat → Int) (W H p q : Nat) : adjAliveSum w W H p q ≤ 8 := by
  rw [adjAliveSum]
  have h1 : (∑ c in interiorCells W H,
      if near c.1 p ∧ near c.2 q ∧ ¬(c.1 = p ∧ c.2 = q)
      then w (c.1 * (W + 2) + c.2) % 2 else 0) ≤
      ∑ c in interiorCells W H,
        (if near c.1 p ∧ near c.2 q ∧ ¬(c.1 = p ∧ c.2 = q) then (1 : Int) else 0) := by
    apply Finset.sum_le_sum
    intro c _
    split_ifs
    · omega
    · exact le_refl 0
  refine h1.trans ?_
  rw [Finset.sum_boole]
  have hcard : ((interiorCells W H).filter
      (fun c => near c.1 p ∧ near c.2 q ∧ ¬(c.1 = p ∧ c.2 = q))).card ≤ 8 := by
    have h8 : ((Finset.range 3 ×ˢ Finset.range 3).erase (1, 1)).card = 8 := by decide
    rw [← h8]
    apply Finset.card_le_card_of_injOn (fun c => (c.1 + 1 - p, c.2 + 1 - q))
    · intro c hc
      rw [Finset.mem_filter, mem_interiorCells] at hc
      obtain ⟨⟨h1, h2, h3, h4⟩, hn1, hn2, hne⟩ := hc
      rw [Finset.mem_erase, Finset.mem_product, Finset.mem_range, Finset.mem_range]
      rw [near] at hn1 hn2
      refine ⟨?_, by omega, by omega⟩
      intro heq
      rw [Prod.mk.injEq] at heq
      exact hne ⟨by omega, by omega⟩
    · intro c hc d hd heq
      rw [Finset.coe_filter, Set.mem_setOf_eq] at hc hd
      obtain ⟨hcm, hcn1, hcn2, _⟩ := hc
      obtain ⟨hdm, hdn1, hdn2, _⟩ := hd
      rw [mem_interiorCells] at hcm hdm
      rw [Prod.mk.injEq] at heq
      rw [near] at hcn1 hcn2 hdn1 hdn2
      have : c.1 = d.1 ∧ c.2 = d.2 := by omega
      exact Prod.ext_iff.mpr this
  exact_mod_cast hcard

lemma Inv_bounds (g : Game) (hInv : Inv g) (p q : Nat)
    (hp : p ≤ g.gridY + 1) (hq : q ≤ g.gridX + 1) :
    0 ≤ g.worldGrid (p * (g.gridX + 2) + q) ∧ g.worldGrid (p * (g.gridX + 2) + q) ≤ 17 := by
  have h := hInv p q hp hq
  have h1 := adjAliveSum_nonneg g.worldGrid g.gridX g.gridY p q
  have h2 := adjAliveSum_le g.worldGrid g.gridX g.gridY p q
  split_ifs at h <;> omega

lemma updateBoard_Inv (g : Game) (P : Nat) (hInv : Inv g) (htab : tablesOk g)
    (hH : 4 ≤ g.gridY) (hP : 1 ≤ P) : Inv (updateBoard g P) := by
  obtain ⟨htA, htD⟩ := htab
  intro p q hp hq
  rw [updateBoard_gridY] at hp
  rw [updateBoard_gridX] at hq
  rw [updateBoard_gridX, updateBoard_gridY]
  have hw' : ∀ n, (updateBoard g P).worldGrid n = g.worldGrid n + tickDelta g n :=
    updateBoard_worldGrid g P hH hP
  have hparity : ∀ u v : Nat, 1 ≤ u → u ≤ g.gridY → 1 ≤ v → v ≤ g.gridX →
      (updateBoard g P).worldGrid (u * (g.gridX + 2) + v) % 2 =
        g.worldGrid (u * (g.gridX + 2) + v) % 2 +
          trans g.worldGrid g.becomesAliveTable g.becomesDeadTable g.gridX u v := by
    intro u v h1 h2 h3 h4
    have hb := Inv_bounds g hInv u v (by omega) (by omega)
    have hw'c := hw' (u * (g.gridX + 2) + v)
    rw [tickDelta_window g u v (by omega), if_pos ⟨h1, h2, h3, h4⟩] at hw'c
    have hInvc := hInv u v (by omega) (by omega)
    rw [if_pos ⟨h1, h2, h3, h4⟩] at hInvc
    have hbt := bit_plus_trans g.worldGrid g.bRules g.sRules g.gridX u v hb.1 hb.2
    rw [← htA, ← htD] at hbt
    have hrange : 0 ≤ g.worldGrid (u * (g.gridX + 2) + v) % 2 +
        trans g.worldGrid g.becomesAliveTable g.becomesDeadTable g.gridX u v ∧
        g.worldGrid (u * (g.gridX + 2) + v) % 2 +
        trans g.worldGrid g.becomesAliveTable g.becomesDeadTable g.gridX u v ≤ 1 := by
      rw [hbt]
      split_ifs <;> omega
    omega
  have hadj : adjAliveSum (updateBoard g P).worldGrid g.gridX g.gridY p q =
      adjAliveSum g.worldGrid g.gridX g.gridY p q + nbrTransSum g p q := by
    rw [adjAliveSum, adjAliveSum, nbrTransSum, ← Finset.sum_add_distrib]
    apply Finset.sum_congr rfl
    intro c hc
    rw [mem_interiorCells] at hc
    by_cases hcc : near c.1 p ∧ near c.2 q ∧ ¬(c.1 = p ∧ c.2 = q)
    · rw [if_pos hcc, if_pos hcc, if_pos hcc, hparity c.1 c.2 hc.1 hc.2.1 hc.2.2.1 hc.2.2.2]
    · rw [if_neg hcc, if_neg hcc, if_neg hcc]
      norm_num
  have hw'pq := hw' (p * (g.gridX + 2) + q)
  rw [tickDelta_window g p q hq] at hw'pq
  have hInvpq := hInv p q hp hq
  by_cases hint : 1 ≤ p ∧ p ≤ g.gridY ∧ 1 ≤ q ∧ q ≤ g.gridX
  · rw [if_pos hint] at hw'pq hInvpq ⊢
    rw [hadj, hparity p q hint.1 hint.2.1 hint.2.2.1 hint.2.2.2]
    omega
  · rw [if_neg hint] at hw'pq hInvpq ⊢
    rw [hadj]
    omega

/-! ## Initialization establishes the invariant -/

lemma guardSum_bounds (S : Finset (Nat × Nat)) (f : Nat × Nat → Int)
    (hf : ∀ c ∈ S, 0 ≤ f c ∧ f c ≤ 1) (p q : Nat) :
    0 ≤ (∑ c in S, if near c.1 p ∧ near c.2 q ∧ ¬(c.1 = p ∧ c.2 = q) then f c else 0) ∧
    (∑ c in S, if near c.1 p ∧ near c.2 q ∧ ¬(c.1 = p ∧ c.2 = q) then f c else 0) ≤ 8 := by
  constructor
  · apply Finset.sum_nonneg
    intro c hc
    split_ifs
    · exact (hf c hc).1
    · exact le_refl 0
  · have h1 : (∑ c in S, if near c.1 p ∧ near c.2 q ∧ ¬(c.1 = p ∧ c.2 = q) then f c else 0) ≤
        ∑ c in S, (if near c.1 p ∧ near c.2 q ∧ ¬(c.1 = p ∧ c.2 = q) then (1 : Int) else 0) := by
      apply Finset.sum_le_sum
      intro c hc
      split_ifs
      · exact (hf c hc).2
      · exact le_refl 0
    refine h1.trans ?_
    rw [Finset.sum_boole]
    have hcard : (S.filter
        (fun c => near c.1 p ∧ near c.2 q ∧ ¬(c.1 = p ∧ c.2 = q))).card ≤ 8 := by
      have h8 : ((Finset.range 3 ×ˢ Finset.range 3).erase (1, 1)).card = 8 := by decide
      rw [← h8]
      apply Finset.card_le_card_of_injOn (fun c => (c.1 + 1 - p, c.2 + 1 - q))
      · intro c hc
        rw [Finset.mem_filter] at hc
        obtain ⟨_, hn1, hn2, hne⟩ := hc
        rw [Finset.mem_erase, Finset.mem_product, Finset.mem_range, Finset.mem_range]
        rw [near] at hn1 hn2
        refine ⟨?_, by omega, by omega⟩
        intro heq
        rw [Prod.mk.injEq] at heq
        exact hne ⟨by omega, by omega⟩
      · intro c hc d hd heq
        rw [Finset.coe_filter, Set.mem_setOf_eq] at hc hd
        obtain ⟨_, hcn1, hcn2, _⟩ := hc
        obtain ⟨_, hdn1, hdn2, _⟩ := hd
        rw [Prod.mk.injEq] at heq
        rw [near] at hcn1 hcn2 hdn1 hdn2
        have : c.1 = d.1 ∧ c.2 = d.2 := by omega
        exact Prod.ext_iff.mpr this
    exact_mod_cast hcard

/-- The window view of a weighted sum of `bump9` contributions over any set of
interior cells. -/
lemma sumBump_window (W H : Nat) (S : Finset (Nat × Nat)) (hS : S ⊆ interiorCells W H)
    (f : Nat × Nat → Int) (p q : Nat) (hq : q ≤ W + 1) :
    (∑ c in S, f c * bump9 W c.1 c.2 (p * (W + 2) + q)) =
      (if (p, q) ∈ S then f (p, q) else 0) +
      2 * ∑ c in S, (if near c.1 p ∧ near c.2 q ∧ ¬(c.1 = p ∧ c.2 = q) then f c else 0) := by
  have step1 : ∀ c ∈ S,
      f c * bump9 W c.1 c.2 (p * (W + 2) + q) =
      (if c = (p, q) then f c else 0)
      + 2 * (if near c.1 p ∧ near c.2 q ∧ ¬(c.1 = p ∧ c.2 = q) then f c else 0) := by
    intro c hc
    have hc' := hS hc
    rw [mem_interiorCells] at hc'
    rw [bump9_window W c.1 c.2 p q hc'.1 hc'.2.2.1 hc'.2.2.2 hq]
    by_cases hA : c.1 = p ∧ c.2 = q
    · have hA' : c = (p, q) := Prod.ext_iff.mpr hA
      have hB : ¬(near c.1 p ∧ near c.2 q ∧ ¬(c.1 = p ∧ c.2 = q)) := fun hB => hB.2.2 hA
      simp only [if_pos hA, if_pos hA', if_neg hB]
      ring
    · have hA' : ¬(c = (p, q)) := fun h => hA (Prod.ext_iff.mp h)
      simp only [if_neg hA, if_neg hA']
      by_cases hB : near c.1 p ∧ near c.2 q ∧ ¬(c.1 = p ∧ c.2 = q)
      · simp only [if_pos hB]; ring
      · simp only [if_neg hB]; ring
  rw [Finset.sum_congr rfl step1, Finset.sum_add_distrib]
  congr 1
  · exact Finset.sum_ite_eq' S (p, q) f
  · rw [Finset.mul_sum]

lemma initAlive_eq (w : Nat → Int) (W i j : Nat) (hi : 1 ≤ i) (hj : 1 ≤ j)
    (heven : w (i * (W + 2) + j) % 2 = 0) (h0 : 0 ≤ w (i * (W + 2) + j))
    (h16 : w (i * (W + 2) + j) ≤ 16) (n : Nat) :
    initAlive w W i j n = w n + bump9 W i j n := by
  obtain ⟨i', rfl⟩ : ∃ i', i = i' + 1 := ⟨i - 1, by omega⟩
  obtain ⟨j', rfl⟩ : ∃ j', j = j' + 1 := ⟨j - 1, by omega⟩
  have hlor : Int.lor (w ((i' + 1) * (W + 2) + (j' + 1))) 1 =
      w ((i' + 1) * (W + 2) + (j' + 1)) + 1 := by
    obtain ⟨k, hk, hk8⟩ : ∃ k : Nat, w ((i' + 1) * (W + 2) + (j' + 1)) = 2 * (k : Int) ∧ k ≤ 8 :=
      ⟨(w ((i' + 1) * (W + 2) + (j' + 1))).toNat / 2, by omega, by omega⟩
    rw [hk]
    interval_cases k <;> decide
  simp only [initAlive, hlor]
  rw [show Function.update w ((i' + 1) * (W + 2) + (j' + 1))
      (w ((i' + 1) * (W + 2) + (j' + 1)) + 1) =
    bump w ((i' + 1) * (W + 2) + (j' + 1)) 1 from rfl]
  simp only [bump_apply]
  rw [bump9]
  simp only [Finset.sum_range_succ, Finset.sum_range_zero, Nat.add_sub_cancel]
  norm_num [← Nat.add_assoc]
  simp only [show ∀ x : Nat, x + 1 + 1 = x + 2 from fun _ => rfl]
  ring_nf

lemma linear_inj (K p q u v : Nat) (hq : q < K) (hv : v < K)
    (h : p * K + q = u * K + v) : p = u ∧ q = v := by
  rcases Nat.lt_trichotomy p u with hlt | heq | hgt
  · exfalso
    have h2 : (p + 1) * K ≤ u * K := Nat.mul_le_mul_right K hlt
    nlinarith
  · subst heq
    exact ⟨rfl, Nat.add_left_cancel h⟩
  · exfalso
    have h2 : (u + 1) * K ≤ p * K := Nat.mul_le_mul_right K hgt
    nlinarith

lemma setPixel_at (px : Nat → Nat) (W x y : Nat) (isBlack : Bool) (kk : Nat) (hkk : kk < 4) :
    setPixel px W x y isBlack (4 * (y * W + x) + kk) =
      colors (if isBlack then 1 else 0) kk := by
  interval_cases kk <;>
    · simp only [setPixel, Function.update_apply]
      split_ifs <;> first | rfl | omega

lemma setPixel_outside (px : Nat → Nat) (W x y : Nat) (isBlack : Bool) (b : Nat)
    (hb : ∀ kk, kk < 4 → b ≠ 4 * (y * W + x) + kk) :
    setPixel px W x y isBlack b = px b := by
  simp only [setPixel, Function.update_apply]
  have h0 := hb 0 (by omega)
  have h1 := hb 1 (by omega)
  have h2 := hb 2 (by omega)
  have h3 := hb 3 (by omega)
  split_ifs <;> first | rfl | omega

/-- The byte of cell `(i, j)` (1-based interior coordinates), channel `kk`. -/
def pixByte (W i j kk : Nat) : Nat := 4 * ((i - 1) * W + (j - 1)) + kk

lemma pixByte_ne (W i j i' j' kk kk' : Nat) (hi : 1 ≤ i) (hi' : 1 ≤ i')
    (hj : 1 ≤ j) (hjW : j ≤ W)
    (hj' : 1 ≤ j') (hjW' : j' ≤ W) (hkk : kk < 4) (hkk' : kk' < 4)
    (hne : ¬(i = i' ∧ j = j')) : pixByte W i j kk ≠ pixByte W i' j' kk' := by
  intro h
  rw [pixByte, pixByte, Nat.mul_comm 4 ((i - 1) * W + (j - 1)),
    Nat.mul_comm 4 ((i' - 1) * W + (j' - 1))] at h
  have h1 : (i - 1) * W + (j - 1) = (i' - 1) * W + (j' - 1) ∧ kk = kk' := by
    have := linear_inj 4 ((i - 1) * W + (j - 1)) kk ((i' - 1) * W + (j' - 1)) kk'
      (by omega) (by omega) h
    exact this
  have h2 := linear_inj W (i - 1) (j - 1) (i' - 1) (j' - 1) (by omega) (by omega) h1.1
  exact hne ⟨by omega, by omega⟩

lemma mem_initCells (W H : Nat) (c : Nat × Nat) :
    c ∈ initCells W H ↔ 1 ≤ c.1 ∧ c.1 ≤ H ∧ 1 ≤ c.2 ∧ c.2 ≤ W := by
  rw [initCells, List.mem_flatten]
  constructor
  · rintro ⟨s, hs, hcs⟩
    rw [List.mem_map] at hs
    obtain ⟨k, hk, rfl⟩ := hs
    rw [List.mem_range] at hk
    rw [rowCells, List.mem_map] at hcs
    obtain ⟨j0, hj0, rfl⟩ := hcs
    rw [List.mem_range] at hj0
    exact ⟨by omega, by omega, by omega, by omega⟩
  · rintro ⟨h1, h2, h3, h4⟩
    refine ⟨rowCells W c.1, ?_, ?_⟩
    · rw [List.mem_map]
      exact ⟨c.1 - 1, by rw [List.mem_range]; omega, by rw [show c.1 - 1 + 1 = c.1 by omega]⟩
    · rw [rowCells, List.mem_map]
      exact ⟨c.2 - 1, by rw [List.mem_range]; omega,
        by rw [show c.2 - 1 + 1 = c.2 by omega]⟩

lemma foldBlack_char (W : Nat) (L : List (Nat × Nat))
    (hL : ∀ c ∈ L, 1 ≤ c.1 ∧ 1 ≤ c.2 ∧ c.2 ≤ W) (px0 : Nat → Nat)
    (i j kk : Nat) (hi : 1 ≤ i) (hj : 1 ≤ j) (hjW : j ≤ W) (hkk : kk < 4) :
    (L.foldl (fun px c => setPixel px W (c.2 - 1) (c.1 - 1) true) px0) (pixByte W i j kk) =
      if (i, j) ∈ L then colors 1 kk else px0 (pixByte W i j kk) := by
  induction L generalizing px0 with
  | nil => simp
  | cons c L ih =>
    rw [List.foldl_cons]
    have hc := hL c (by simp)
    by_cases hcij : c = (i, j)
    · subst hcij
      rw [ih (fun d hd => hL d (List.mem_cons_of_mem _ hd))]
      rw [if_pos (List.mem_cons_self (i, j) L)]
      by_cases hmem : (i, j) ∈ L
      · rw [if_pos hmem]
      · rw [if_neg hmem]
        rw [show pixByte W i j kk = 4 * (((i, j).1 - 1) * W + ((i, j).2 - 1)) + kk from rfl]
        exact setPixel_at px0 W ((i, j).2 - 1) ((i, j).1 - 1) true kk hkk
    · rw [ih (fun d hd => hL d (List.mem_cons_of_mem _ hd))]
      have hout : setPixel px0 W (c.2 - 1) (c.1 - 1) true (pixByte W i j kk) =
          px0 (pixByte W i j kk) := by
        apply setPixel_outside
        intro kk' hkk'
        have := pixByte_ne W i j c.1 c.2 kk kk' hi hc.1 hj hjW hc.2.1 hc.2.2 hkk hkk'
          (fun h => hcij (by rw [Prod.ext_iff]; exact ⟨h.1.symm, h.2.symm⟩))
        rw [pixByte, pixByte] at this
        exact this
      rw [hout]
      have hmemiff : ((i, j) ∈ c :: L) = ((i, j) ∈ L) := by
        rw [eq_iff_iff, List.mem_cons]
        constructor
        · rintro (h | h)
          · exact absurd h.symm hcij
          · exact h
        · exact Or.inr
      simp only [hmemiff]

lemma blackPixels_char (W H i j kk : Nat) (hi : 1 ≤ i) (hiH : i ≤ H)
    (hj : 1 ≤ j) (hjW : j ≤ W) (hkk : kk < 4) :
    blackPixels W H (pixByte W i j kk) = colors 1 kk := by
  rw [blackPixels, foldBlack_char W (initCells W H)
    (fun c hc => by rw [mem_initCells] at hc; exact ⟨hc.1, hc.2.2.1, hc.2.2.2⟩)
    (fun _ => 0) i j kk hi hj hjW hkk]
  rw [if_pos (by rw [mem_initCells]; exact ⟨hi, hiH, hj, hjW⟩)]

/-- Whether the `InitializeBoard` draw for interior cell `c` comes up alive,
when the random loop starts at stream position `pos0` (the draws are consumed
in row-major order, one per cell). -/
def aliveInd (stream : Nat → Nat) (pos0 W : Nat) (thr : Int) (c : Nat × Nat) : Int :=
  if ((stream (pos0 + ((c.1 - 1) * W + (c.2 - 1))) : Int) < thr) then 1 else 0

/-- The grid obtained by accumulating the initialization writes of the cells in `S`. -/
def partialInit (stream : Nat → Nat) (pos0 W : Nat) (thr : Int)
    (S : Finset (Nat × Nat)) (n : Nat) : Int :=
  ∑ c in S, aliveInd stream pos0 W thr c * bump9 W c.1 c.2 n

/-- The interior cells of the first `t` rows. -/
def rowsDone (W t : Nat) : Finset (Nat × Nat) :=
  Finset.Ico 1 (t + 1) ×ˢ Finset.Ico 1 (W + 1)

/-- The interior cells of the first `t` rows plus the first `u` cells of row `t + 1`. -/
def doneCells (W t u : Nat) : Finset (Nat × Nat) :=
  rowsDone W t ∪ ({t + 1} ×ˢ Finset.Ico 1 (u + 1))

lemma mem_doneCells (W t u : Nat) (c : Nat × Nat) :
    c ∈ doneCells W t u ↔
      (1 ≤ c.1 ∧ c.1 ≤ t ∧ 1 ≤ c.2 ∧ c.2 ≤ W) ∨ (c.1 = t + 1 ∧ 1 ≤ c.2 ∧ c.2 ≤ u) := by
  rw [doneCells, rowsDone, Finset.mem_union, Finset.mem_product, Finset.mem_product,
    Finset.mem_Ico, Finset.mem_Ico, Finset.mem_Ico, Finset.mem_singleton]
  omega

lemma doneCells_zero (W t : Nat) : doneCells W t 0 = rowsDone W t := by
  apply Finset.ext
  intro c
  rw [mem_doneCells, rowsDone, Finset.mem_product, Finset.mem_Ico, Finset.mem_Ico]
  omega

lemma doneCells_full (W t : Nat) : doneCells W t W = rowsDone W (t + 1) := by
  apply Finset.ext
  intro c
  rw [mem_doneCells, rowsDone, Finset.mem_product, Finset.mem_Ico, Finset.mem_Ico]
  omega

lemma doneCells_insert (W t u : Nat) :
    doneCells W t (u + 1) = insert (t + 1, u + 1) (doneCells W t u) := by
  apply Finset.ext
  intro c
  rw [Finset.mem_insert, mem_doneCells, mem_doneCells, Prod.ext_iff]
  omega

lemma not_mem_doneCells (W t u : Nat) : (t + 1, u + 1) ∉ doneCells W t u := by
  rw [mem_doneCells]
  omega

lemma doneCells_subset (W H t u : Nat) (ht : t + 1 ≤ H) (hu : u ≤ W) :
    doneCells W t u ⊆ interiorCells W H := by
  intro c hc
  rw [mem_doneCells] at hc
  rw [mem_interiorCells]
  omega

lemma aliveInd_bounds (stream : Nat → Nat) (pos0 W : Nat) (thr : Int) (c : Nat × Nat) :
    0 ≤ aliveInd stream pos0 W thr c ∧ aliveInd stream pos0 W thr c ≤ 1 := by
  rw [aliveInd]
  split_ifs <;> omega

lemma initCell_fields (W : Nat) (thr : Int) (st : Game × Rng) (c : Nat × Nat) :
    (initCell W thr st c).1.gridX = st.1.gridX ∧
    (initCell W thr st c).1.gridY = st.1.gridY ∧
    (initCell W thr st c).1.bRules = st.1.bRules ∧
    (initCell W thr st c).1.sRules = st.1.sRules ∧
    (initCell W thr st c).1.becomesAliveTable = st.1.becomesAliveTable ∧
    (initCell W thr st c).1.becomesDeadTable = st.1.becomesDeadTable ∧
    (initCell W thr st c).1.buffer = st.1.buffer := by
  rw [initCell]
  simp only [Rng.next]
  split_ifs <;> exact ⟨rfl, rfl, rfl, rfl, rfl, rfl, rfl⟩

lemma foldInit_fields (W : Nat) (thr : Int) (L : List (Nat × Nat)) :
    ∀ st : Game × Rng,
    (L.foldl (initCell W thr) st).1.gridX = st.1.gridX ∧
    (L.foldl (initCell W thr) st).1.gridY = st.1.gridY ∧
    (L.foldl (initCell W thr) st).1.bRules = st.1.bRules ∧
    (L.foldl (initCell W thr) st).1.sRules = st.1.sRules ∧
    (L.foldl (initCell W thr) st).1.becomesAliveTable = st.1.becomesAliveTable ∧
    (L.foldl (initCell W thr) st).1.becomesDeadTable = st.1.becomesDeadTable ∧
    (L.foldl (initCell W thr) st).1.buffer = st.1.buffer := by
  induction L with
  | nil => intro st; exact ⟨rfl, rfl, rfl, rfl, rfl, rfl, rfl⟩
  | cons c L ih =>
    intro st
    rw [List.foldl_cons]
    have h1 := ih (initCell W thr st c)
    have h2 := initCell_fields W thr st c
    exact ⟨h1.1.trans h2.1, h1.2.1.trans h2.2.1, h1.2.2.1.trans h2.2.2.1,
      h1.2.2.2.1.trans h2.2.2.2.1, h1.2.2.2.2.1.trans h2.2.2.2.2.1,
      h1.2.2.2.2.2.1.trans h2.2.2.2.2.2.1, h1.2.2.2.2.2.2.trans h2.2.2.2.2.2.2⟩

lemma initCell_step (stream : Nat → Nat) (pos0 W H : Nat) (thr : Int) (t u : Nat)
    (htH : t + 1 ≤ H) (huW : u + 1 ≤ W) (g : Game) (r : Rng)
    (hstream : r.stream = stream) (hpos : r.pos = pos0 + (t * W + u))
    (hgrid : ∀ n, g.worldGrid n = partialInit stream pos0 W thr (doneCells W t u) n) :
    (∀ n, (initCell W thr (g, r) (t + 1, u + 1)).1.worldGrid n =
       partialInit stream pos0 W thr (doneCells W t (u + 1)) n)
    ∧ (initCell W thr (g, r) (t + 1, u + 1)).2.stream = stream
    ∧ (initCell W thr (g, r) (t + 1, u + 1)).2.pos = pos0 + (t * W + (u + 1))
    ∧ (initCell W thr (g, r) (t + 1, u + 1)).1.pixels =
        (if aliveInd stream pos0 W thr (t + 1, u + 1) = 1
         then setPixel g.pixels W u t false else g.pixels) := by
  have hrank : aliveInd stream pos0 W thr (t + 1, u + 1) =
      if ((stream (pos0 + (t * W + u)) : Int) < thr) then 1 else 0 := by
    rw [aliveInd]
    norm_num
  have hcenter : partialInit stream pos0 W thr (doneCells W t u)
      ((t + 1) * (W + 2) + (u + 1)) % 2 = 0 ∧
      0 ≤ partialInit stream pos0 W thr (doneCells W t u) ((t + 1) * (W + 2) + (u + 1)) ∧
      partialInit stream pos0 W thr (doneCells W t u) ((t + 1) * (W + 2) + (u + 1)) ≤ 16 := by
    have hw := sumBump_window W H (doneCells W t u)
      (doneCells_subset W H t u htH (by omega))
      (aliveInd stream pos0 W thr) (t + 1) (u + 1) (by omega)
    rw [partialInit, hw, if_neg (not_mem_doneCells W t u)]
    have hb := guardSum_bounds (doneCells W t u) (aliveInd stream pos0 W thr)
      (fun c _ => aliveInd_bounds stream pos0 W thr c) (t + 1) (u + 1)
    omega
  have hins : ∀ n, partialInit stream pos0 W thr (doneCells W t (u + 1)) n =
      partialInit stream pos0 W thr (doneCells W t u) n +
        aliveInd stream pos0 W thr (t + 1, u + 1) * bump9 W (t + 1) (u + 1) n := by
    intro n
    rw [partialInit, partialInit, doneCells_insert,
      Finset.sum_insert (not_mem_doneCells W t u)]
    ring
  rw [initCell]
  simp only [Rng.next, hstream, hpos]
  by_cases halive : ((stream (pos0 + (t * W + u)) : Int) < thr)
  · rw [if_pos halive]
    have hind : aliveInd stream pos0 W thr (t + 1, u + 1) = 1 := by
      rw [hrank, if_pos halive]
    refine ⟨?_, rfl, rfl, ?_⟩
    · intro n
      show initAlive g.worldGrid W (t + 1) (u + 1) n = _
      rw [initAlive_eq g.worldGrid W (t + 1) (u + 1) (by omega) (by omega)
        (by rw [hgrid]; exact hcenter.1)
        (by rw [hgrid]; exact hcenter.2.1)
        (by rw [hgrid]; exact hcenter.2.2) n]
      rw [hgrid n, hins n, hind]
      ring
    · rw [if_pos hind]
      show setPixel g.pixels W (u + 1 - 1) (t + 1 - 1) false = setPixel g.pixels W u t false
      norm_num
  · rw [if_neg halive]
    have hind : aliveInd stream pos0 W thr (t + 1, u + 1) = 0 := by
      rw [hrank, if_neg halive]
    refine ⟨?_, rfl, rfl, ?_⟩
    · intro n
      show g.worldGrid n = _
      rw [hgrid n, hins n, hind]
      ring
    · rw [if_neg (by rw [hind]; omega)]

lemma aliveInd_eq_or (stream : Nat → Nat) (pos0 W : Nat) (thr : Int) (c : Nat × Nat) :
    aliveInd stream pos0 W thr c = 0 ∨ aliveInd stream pos0 W thr c = 1 := by
  rw [aliveInd]
  split_ifs
  · exact Or.inr rfl
  · exact Or.inl rfl

lemma initRow_fold (stream : Nat → Nat) (pos0 W H : Nat) (thr : Int) (t : Nat)
    (htH : t + 1 ≤ H) :
    ∀ u, u ≤ W → ∀ (g : Game) (r : Rng),
      r.stream = stream → r.pos = pos0 + t * W →
      (∀ n, g.worldGrid n = partialInit stream pos0 W thr (doneCells W t 0) n) →
      (∀ n, (((List.range u).map (fun j0 => ((t + 1 : Nat), j0 + 1))).foldl
          (initCell W thr) (g, r)).1.worldGrid n =
        partialInit stream pos0 W thr (doneCells W t u) n)
      ∧ (((List.range u).map (fun j0 => ((t + 1 : Nat), j0 + 1))).foldl
          (initCell W thr) (g, r)).2.stream = stream
      ∧ (((List.range u).map (fun j0 => ((t + 1 : Nat), j0 + 1))).foldl
          (initCell W thr) (g, r)).2.pos = pos0 + t * W + u
      ∧ (∀ i2 j2 kk, 1 ≤ i2 → 1 ≤ j2 → j2 ≤ W → kk < 4 →
          (((List.range u).map (fun j0 => ((t + 1 : Nat), j0 + 1))).foldl
            (initCell W thr) (g, r)).1.pixels (pixByte W i2 j2 kk) =
          if i2 = t + 1 ∧ 1 ≤ j2 ∧ j2 ≤ u ∧ aliveInd stream pos0 W thr (i2, j2) = 1
          then colors 0 kk else g.pixels (pixByte W i2 j2 kk)) := by
  intro u
  induction u with
  | zero =>
    intro _ g r hstream hpos hgrid
    simp only [List.range_zero, List.map_nil, List.foldl_nil]
    refine ⟨?_, hstream, by omega, ?_⟩
    · intro n
      rw [hgrid n]
    · intro i2 j2 kk _ hj2 _ _
      rw [if_neg (by omega)]
  | succ u ih =>
    intro huW g r hstream hpos hgrid
    have hu : u ≤ W := by omega
    obtain ⟨ihg, ihs, ihp, ihx⟩ := ih hu g r hstream hpos hgrid
    set stu := ((List.range u).map (fun j0 => ((t + 1 : Nat), j0 + 1))).foldl
      (initCell W thr) (g, r) with hstu
    have hfold : (((List.range (u + 1)).map (fun j0 => ((t + 1 : Nat), j0 + 1))).foldl
        (initCell W thr) (g, r)) = initCell W thr stu (t + 1, u + 1) := by
      rw [List.range_succ, List.map_append, List.foldl_append]
      rfl
    have hstep := initCell_step stream pos0 W H thr t u htH huW stu.1 stu.2
      ihs (by omega) ihg
    rw [hfold]
    refine ⟨fun n => hstep.1 n, hstep.2.1, by rw [hstep.2.2.1]; ring, ?_⟩
    intro i2 j2 kk hi2 hj2 hj2W hkk
    rw [hstep.2.2.2]
    rcases aliveInd_eq_or stream pos0 W thr (t + 1, u + 1) with hind | hind
    · rw [if_neg (by rw [hind]; omega)]
      rw [ihx i2 j2 kk hi2 hj2 hj2W hkk]
      by_cases hcond : i2 = t + 1 ∧ 1 ≤ j2 ∧ j2 ≤ u ∧
          aliveInd stream pos0 W thr (i2, j2) = 1
      · rw [if_pos hcond, if_pos ⟨hcond.1, hcond.2.1, by omega, hcond.2.2.2⟩]
      · rw [if_neg hcond, if_neg ?_]
        intro hcond'
        apply hcond
        refine ⟨hcond'.1, hcond'.2.1, ?_, hcond'.2.2.2⟩
        rcases Nat.lt_or_ge j2 (u + 1) with h' | h'
        · omega
        · exfalso
          have hj2eq : j2 = u + 1 := by omega
          have : (i2, j2) = (t + 1, u + 1) := by
            rw [Prod.ext_iff]; exact ⟨hcond'.1, hj2eq⟩
          rw [this] at hcond'
          rw [hcond'.2.2.2] at hind
          omega
    · rw [if_pos hind]
      by_cases hc : i2 = t + 1 ∧ j2 = u + 1
      · have hbyte : pixByte W i2 j2 kk = 4 * (t * W + u) + kk := by
          rw [pixByte, hc.1, hc.2]
          norm_num
        rw [hbyte]
        rw [show (4 : Nat) * (t * W + u) + kk = 4 * (t * W + u) + kk from rfl]
        rw [show setPixel stu.1.pixels W u t false (4 * (t * W + u) + kk) =
            colors 0 kk from by
          have := setPixel_at stu.1.pixels W u t false kk hkk
          simpa using this]
        rw [if_pos ⟨hc.1, by omega, by omega, by rw [show ((i2 : Nat), (j2 : Nat)) = (t + 1, u + 1) from by rw [Prod.ext_iff]; exact ⟨hc.1, hc.2⟩]; exact hind⟩]
      · have hout : setPixel stu.1.pixels W u t false (pixByte W i2 j2 kk) =
            stu.1.pixels (pixByte W i2 j2 kk) := by
          apply setPixel_outside
          intro kk' hkk'
          have hne := pixByte_ne W i2 j2 (t + 1) (u + 1) kk kk' hi2 (by omega)
            hj2 hj2W (by omega) (by omega) hkk hkk' hc
          have hb2 : pixByte W (t + 1) (u + 1) kk' = 4 * (t * W + u) + kk' := by
            rw [pixByte]
            norm_num
          rw [← hb2]
          exact hne
        rw [hout, ihx i2 j2 kk hi2 hj2 hj2W hkk]
        by_cases hcond : i2 = t + 1 ∧ 1 ≤ j2 ∧ j2 ≤ u ∧
            aliveInd stream pos0 W thr (i2, j2) = 1
        · rw [if_pos hcond, if_pos ⟨hcond.1, hcond.2.1, by omega, hcond.2.2.2⟩]
        · rw [if_neg hcond, if_neg ?_]
          intro hcond'
          apply hcond
          refine ⟨hcond'.1, hcond'.2.1, ?_, hcond'.2.2.2⟩
          have : ¬(j2 = u + 1) := fun h => hc ⟨hcond'.1, h⟩
          omega

lemma mem_rowsDone (W t : Nat) (c : Nat × Nat) :
    c ∈ rowsDone W t ↔ 1 ≤ c.1 ∧ c.1 ≤ t ∧ 1 ≤ c.2 ∧ c.2 ≤ W := by
  rw [rowsDone, Finset.mem_product, Finset.mem_Ico, Finset.mem_Ico]
  omega

lemma rowsDone_zero_empty (W : Nat) : rowsDone W 0 = ∅ := by
  apply Finset.eq_empty_of_forall_not_mem
  intro c hc
  rw [mem_rowsDone] at hc
  omega

lemma initRows_fold (stream : Nat → Nat) (pos0 W H : Nat) (thr : Int) :
    ∀ t, t ≤ H → ∀ (g : Game) (r : Rng),
      r.stream = stream → r.pos = pos0 →
      (∀ n, g.worldGrid n = 0) →
      (∀ n, ((((List.range t).map (fun k => rowCells W (k + 1))).flatten).foldl
          (initCell W thr) (g, r)).1.worldGrid n =
        partialInit stream pos0 W thr (rowsDone W t) n)
      ∧ ((((List.range t).map (fun k => rowCells W (k + 1))).flatten).foldl
          (initCell W thr) (g, r)).2.stream = stream
      ∧ ((((List.range t).map (fun k => rowCells W (k + 1))).flatten).foldl
          (initCell W thr) (g, r)).2.pos = pos0 + t * W
      ∧ (∀ i2 j2 kk, 1 ≤ i2 → 1 ≤ j2 → j2 ≤ W → kk < 4 →
          ((((List.range t).map (fun k => rowCells W (k + 1))).flatten).foldl
            (initCell W thr) (g, r)).1.pixels (pixByte W i2 j2 kk) =
          if (i2, j2) ∈ rowsDone W t ∧ aliveInd stream pos0 W thr (i2, j2) = 1
          then colors 0 kk else g.pixels (pixByte W i2 j2 kk)) := by
  intro t
  induction t with
  | zero =>
    intro _ g r hstream hpos hgrid
    simp only [List.range_zero, List.map_nil, List.flatten_nil, List.foldl_nil]
    refine ⟨?_, hstream, by omega, ?_⟩
    · intro n
      rw [hgrid n, partialInit, rowsDone_zero_empty, Finset.sum_empty]
    · intro i2 j2 kk _ _ _ _
      rw [if_neg (by rw [mem_rowsDone]; omega)]
  | succ t ih =>
    intro htH g r hstream hpos hgrid
    obtain ⟨ihg, ihs, ihp, ihx⟩ := ih (by omega) g r hstream hpos hgrid
    set stt := ((((List.range t).map (fun k => rowCells W (k + 1))).flatten).foldl
      (initCell W thr) (g, r)) with hstt
    have hfold : ((((List.range (t + 1)).map (fun k => rowCells W (k + 1))).flatten).foldl
        (initCell W thr) (g, r)) =
        (rowCells W (t + 1)).foldl (initCell W thr) stt := by
      rw [List.range_succ, List.map_append, List.flatten_append, List.foldl_append]
      simp only [List.map_cons, List.map_nil, List.flatten_cons, List.flatten_nil,
        List.append_nil]
    have hrow := initRow_fold stream pos0 W H thr t htH W le_rfl stt.1 stt.2 ihs ihp
      (fun n => by rw [ihg n]; rw [partialInit, partialInit, doneCells_zero])
    rw [hfold]
    have hrc : rowCells W (t + 1) = (List.range W).map (fun j0 => ((t + 1 : Nat), j0 + 1)) := rfl
    rw [hrc]
    obtain ⟨hg1, hs1, hp1, hx1⟩ := hrow
    refine ⟨?_, hs1, ?_, ?_⟩
    · intro n
      rw [hg1 n, partialInit, partialInit, doneCells_full]
    · rw [hp1]; ring
    · intro i2 j2 kk hi2 hj2 hj2W hkk
      rw [hx1 i2 j2 kk hi2 hj2 hj2W hkk]
      by_cases hcond : i2 = t + 1 ∧ 1 ≤ j2 ∧ j2 ≤ W ∧
          aliveInd stream pos0 W thr (i2, j2) = 1
      · rw [if_pos hcond,
          if_pos ⟨by rw [mem_rowsDone]; omega, hcond.2.2.2⟩]
      · rw [if_neg hcond, ihx i2 j2 kk hi2 hj2 hj2W hkk]
        by_cases hcond2 : (i2, j2) ∈ rowsDone W t ∧ aliveInd stream pos0 W thr (i2, j2) = 1
        · have hm := (mem_rowsDone W t (i2, j2)).mp hcond2.1
          rw [if_pos hcond2, if_pos ⟨by rw [mem_rowsDone]; omega, hcond2.2⟩]
        · rw [if_neg hcond2, if_neg ?_]
          intro hcond3
          have hm := (mem_rowsDone W (t + 1) (i2, j2)).mp hcond3.1
          by_cases hieq : i2 = t + 1
          · exact hcond ⟨hieq, by omega, by omega, hcond3.2⟩
          · exact hcond2 ⟨by rw [mem_rowsDone]; omega, hcond3.2⟩

lemma rowsDone_eq_interior (W H : Nat) : rowsDone W H = interiorCells W H := rfl

lemma InitializeBoard_char (g0 : Game) (W H : Nat) (thr : Int) (r : Rng) :
    (∀ n, (InitializeBoard g0 W H thr r).1.worldGrid n =
        partialInit r.stream r.pos W thr (interiorCells W H) n)
    ∧ (InitializeBoard g0 W H thr r).2.stream = r.stream
    ∧ (InitializeBoard g0 W H thr r).2.pos = r.pos + H * W
    ∧ (InitializeBoard g0 W H thr r).1.gridX = W
    ∧ (InitializeBoard g0 W H thr r).1.gridY = H
    ∧ (∀ i j kk, 1 ≤ i → i ≤ H → 1 ≤ j → j ≤ W → kk < 4 →
        (InitializeBoard g0 W H thr r).1.pixels (pixByte W i j kk) =
          if aliveInd r.stream r.pos W thr (i, j) = 1 then colors 0 kk else colors 1 kk)
    ∧ (InitializeBoard g0 W H thr r).1.bRules = g0.bRules
    ∧ (InitializeBoard g0 W H thr r).1.sRules = g0.sRules
    ∧ (InitializeBoard g0 W H thr r).1.becomesAliveTable = g0.becomesAliveTable
    ∧ (InitializeBoard g0 W H thr r).1.becomesDeadTable = g0.becomesDeadTable := by
  rw [InitializeBoard]
  rw [show initCells W H = ((List.range H).map (fun k => rowCells W (k + 1))).flatten from rfl]
  set g1 : Game := ({ g0 with gridX := W, gridY := H, pixels := blackPixels W H, worldGrid := fun _ => 0, buffer := fun _ => 0 } : Game) with hg1
  have hrows := initRows_fold r.stream r.pos W H thr H le_rfl g1 r rfl rfl (fun _ => rfl)
  have hfields := foldInit_fields W thr (initCells W H) (g1, r)
  rw [show initCells W H =
      ((List.range H).map (fun k => rowCells W (k + 1))).flatten from rfl] at hfields
  obtain ⟨hg, hs, hp, hx⟩ := hrows
  refine ⟨?_, hs, hp, ?_, ?_, ?_, ?_, ?_, ?_, ?_⟩
  · intro n
    rw [hg n, partialInit, partialInit, rowsDone_eq_interior]
  · exact hfields.1
  · exact hfields.2.1
  · intro i j kk hi hiH hj hjW hkk
    rw [hx i j kk hi hj hjW hkk]
    have hbase : g1.pixels (pixByte W i j kk) = colors 1 kk :=
      blackPixels_char W H i j kk hi hiH hj hjW hkk
    rw [hbase]
    by_cases hal : aliveInd r.stream r.pos W thr (i, j) = 1
    · rw [if_pos ⟨by rw [mem_rowsDone]; omega, hal⟩, if_pos hal]
    · rw [if_neg (fun h => hal h.2), if_neg hal]
  · exact hfields.2.2.1
  · exact hfields.2.2.2.1
  · exact hfields.2.2.2.2.1
  · exact hfields.2.2.2.2.2.1

lemma InitializeBoard_Inv (g0 : Game) (W H : Nat) (thr : Int) (r : Rng) :
    Inv (InitializeBoard g0 W H thr r).1 := by
  obtain ⟨hg, _, _, hX, hY, _⟩ := InitializeBoard_char g0 W H thr r
  intro p q hp hq
  rw [hY] at hp
  rw [hX] at hq
  rw [hX, hY]
  have hval : ∀ u v : Nat, v ≤ W + 1 →
      (InitializeBoard g0 W H thr r).1.worldGrid (u * (W + 2) + v) =
        (if (u, v) ∈ interiorCells W H then aliveInd r.stream r.pos W thr (u, v) else 0) +
        2 * ∑ c in interiorCells W H,
          (if near c.1 u ∧ near c.2 v ∧ ¬(c.1 = u ∧ c.2 = v)
           then aliveInd r.stream r.pos W thr c else 0) := by
    intro u v hv
    rw [hg (u * (W + 2) + v), partialInit,
      sumBump_window W H (interiorCells W H) (fun c hc => hc)
        (aliveInd r.stream r.pos W thr) u v hv]
  have hparity : ∀ u v : Nat, 1 ≤ u → u ≤ H → 1 ≤ v → v ≤ W →
      (InitializeBoard g0 W H thr r).1.worldGrid (u * (W + 2) + v) % 2 =
        aliveInd r.stream r.pos W thr (u, v) := by
    intro u v h1 h2 h3 h4
    rw [hval u v (by omega), if_pos (by rw [mem_interiorCells]; omega)]
    rcases aliveInd_eq_or r.stream r.pos W thr (u, v) with h | h <;> rw [h] <;> omega
  have hadj : adjAliveSum (InitializeBoard g0 W H thr r).1.worldGrid W H p q =
      ∑ c in interiorCells W H,
        (if near c.1 p ∧ near c.2 q ∧ ¬(c.1 = p ∧ c.2 = q)
         then aliveInd r.stream r.pos W thr c else 0) := by
    rw [adjAliveSum]
    apply Finset.sum_congr rfl
    intro c hc
    rw [mem_interiorCells] at hc
    by_cases hcc : near c.1 p ∧ near c.2 q ∧ ¬(c.1 = p ∧ c.2 = q)
    · rw [if_pos hcc, if_pos hcc, hparity c.1 c.2 hc.1 hc.2.1 hc.2.2.1 hc.2.2.2]
    · rw [if_neg hcc, if_neg hcc]
  by_cases hint : 1 ≤ p ∧ p ≤ H ∧ 1 ≤ q ∧ q ≤ W
  · rw [if_pos hint, hparity p q hint.1 hint.2.1 hint.2.2.1 hint.2.2.2]
    rw [hval p q hq, hadj, if_pos (by rw [mem_interiorCells]; omega)]
    ring
  · rw [if_neg hint, hval p q hq, hadj, if_neg (by rw [mem_interiorCells]; omega)]
    ring

/-! ## Bridges to the claim-facing notions -/

lemma updateRange_bRules (g : Game) (a b : Nat) : (updateRange g a b).bRules = g.bRules := by
  rw [updateRange]; simp

lemma updateRange_sRules (g : Game) (a b : Nat) : (updateRange g a b).sRules = g.sRules := by
  rw [updateRange]; simp

lemma foldl_updateRange_bRules (L : List Nat) (g : Game) (lo hi : Nat → Nat) :
    (L.foldl (fun gm i => updateRange gm (lo i) (hi i)) g).bRules = g.bRules := by
  induction L generalizing g with
  | nil => rfl
  | cons a L ih => rw [List.foldl_cons, ih, updateRange_bRules]

lemma foldl_updateRange_sRules (L : List Nat) (g : Game) (lo hi : Nat → Nat) :
    (L.foldl (fun gm i => updateRange gm (lo i) (hi i)) g).sRules = g.sRules := by
  induction L generalizing g with
  | nil => rfl
  | cons a L ih => rw [List.foldl_cons, ih, updateRange_sRules]

lemma updateBoard_bRules (g : Game) (P : Nat) : (updateBoard g P).bRules = g.bRules := by
  rw [updateBoard]
  simp only [foldl_updateRange_bRules, updateRange_bRules]

lemma updateBoard_sRules (g : Game) (P : Nat) : (updateBoard g P).sRules = g.sRules := by
  rw [updateBoard]
  simp only [foldl_updateRange_sRules, updateRange_sRules]

lemma updateBoard_tablesOk (g : Game) (P : Nat) (h : tablesOk g) :
    tablesOk (updateBoard g P) := by
  rw [tablesOk, updateBoard_becomesAliveTable, updateBoard_becomesDeadTable,
    updateBoard_bRules, updateBoard_sRules]
  exact h

lemma mem_paddedCells (W H : Nat) (c : Nat × Nat) :
    c ∈ paddedCells W H ↔ c.1 ≤ H + 1 ∧ c.2 ≤ W + 1 := by
  rw [paddedCells, Finset.mem_product, Finset.mem_range, Finset.mem_range]
  omega

/-- Under the invariant, the full-window live count (border slots included)
agrees with the interior-only one, because border slots never have their alive
bit set. -/
lemma mooreCount_eq_adjAliveSum (g : Game) (hInv : Inv g) (p q : Nat) :
    mooreCount g.worldGrid g.gridX g.gridY p q =
      adjAliveSum g.worldGrid g.gridX g.gridY p q := by
  rw [mooreCount, adjAliveSum]
  refine (Finset.sum_subset ?_ ?_).symm
  · intro c hc
    rw [mem_interiorCells] at hc
    rw [mem_paddedCells]
    omega
  · intro c hc hnc
    rw [mem_paddedCells] at hc
    rw [mem_interiorCells] at hnc
    have hB := hInv c.1 c.2 (by omega) (by omega)
    rw [if_neg (by omega)] at hB
    have : g.worldGrid (c.1 * (g.gridX + 2) + c.2) % 2 = 0 := by omega
    rw [this]
    split_ifs <;> rfl

lemma updateBoard_parity (g : Game) (P : Nat) (hInv : Inv g) (htab : tablesOk g)
    (hH : 4 ≤ g.gridY) (hP : 1 ≤ P) (u v : Nat)
    (h1 : 1 ≤ u) (h2 : u ≤ g.gridY) (h3 : 1 ≤ v) (h4 : v ≤ g.gridX) :
    (updateBoard g P).worldGrid (u * (g.gridX + 2) + v) % 2 =
      g.worldGrid (u * (g.gridX + 2) + v) % 2 +
        trans g.worldGrid g.becomesAliveTable g.becomesDeadTable g.gridX u v := by
  obtain ⟨htA, htD⟩ := htab
  have hb := Inv_bounds g hInv u v (by omega) (by omega)
  have hw'c := updateBoard_worldGrid g P hH hP (u * (g.gridX + 2) + v)
  rw [tickDelta_window g u v (by omega), if_pos ⟨h1, h2, h3, h4⟩] at hw'c
  have hInvc := hInv u v (by omega) (by omega)
  rw [if_pos ⟨h1, h2, h3, h4⟩] at hInvc
  have hbt := bit_plus_trans g.worldGrid g.bRules g.sRules g.gridX u v hb.1 hb.2
  rw [← htA, ← htD] at hbt
  have hrange : 0 ≤ g.worldGrid (u * (g.gridX + 2) + v) % 2 +
      trans g.worldGrid g.becomesAliveTable g.becomesDeadTable g.gridX u v ∧
      g.worldGrid (u * (g.gridX + 2) + v) % 2 +
      trans g.worldGrid g.becomesAliveTable g.becomesDeadTable g.gridX u v ≤ 1 := by
    rw [hbt]
    split_ifs <;> omega
  omega

lemma trans_range (w : Nat → Int) (bt dt : Nat → Bool) (X i j : Nat) :
    -1 ≤ trans w bt dt X i j ∧ trans w bt dt X i j ≤ 1 := by
  rw [trans]
  split_ifs <;> omega

lemma bump9_nonneg (X i j n : Nat) : 0 ≤ bump9 X i j n := by
  rw [bump9]
  apply Finset.sum_nonneg
  intro a _
  apply Finset.sum_nonneg
  intro b _
  split_ifs <;> omega

lemma iterate_updateBoard_gridX (g : Game) (P N : Nat) :
    ((fun h => updateBoard h P)^[N] g).gridX = g.gridX := by
  induction N with
  | zero => rfl
  | succ k ih => rw [Function.iterate_succ_apply', updateBoard_gridX, ih]

lemma iterate_updateBoard_Inv (g : Game) (P N : Nat) (hInv : Inv g) (htab : tablesOk g)
    (hH : 4 ≤ g.gridY) (hP : 1 ≤ P) :
    Inv ((fun h => updateBoard h P)^[N] g) ∧ tablesOk ((fun h => updateBoard h P)^[N] g) := by
  induction N with
  | zero => exact ⟨hInv, htab⟩
  | succ k ih =>
    rw [Function.iterate_succ_apply']
    exact ⟨updateBoard_Inv _ P ih.1 ih.2 (by rw [iterate_updateBoard_gridY]; exact hH) hP,
      updateBoard_tablesOk _ P ih.2⟩

lemma restart_Inv (g : Game) (newB newS : Ruleset) (W H : Nat) (thr : Int) (r : Rng) :
    Inv (restart g newB newS W H thr r).1 :=
  InitializeBoard_Inv (updateTables { g with bRules := newB, sRules := newS }) W H thr r

lemma restart_tablesOk (g : Game) (newB newS : Ruleset) (W H : Nat) (thr : Int) (r : Rng) :
    tablesOk (restart g newB newS W H thr r).1 := by
  obtain ⟨_, _, _, _, _, _, hb, hs, hA, hD⟩ :=
    InitializeBoard_char (updateTables { g with bRules := newB, sRules := newS }) W H thr r
  constructor
  · rw [show restart g newB newS W H thr r =
      InitializeBoard (updateTables { g with bRules := newB, sRules := newS }) W H thr r
        from rfl, hA, hb]
    rfl
  · rw [show restart g newB newS W H thr r =
      InitializeBoard (updateTables { g with bRules := newB, sRules := newS }) W H thr r
        from rfl, hD, hs]
    rfl

lemma restart_gridX (g : Game) (newB newS : Ruleset) (W H : Nat) (thr : Int) (r : Rng) :
    (restart g newB newS W H thr r).1.gridX = W :=
  (InitializeBoard_char (updateTables { g with bRules := newB, sRules := newS })
    W H thr r).2.2.2.1

lemma restart_gridY (g : Game) (newB newS : Ruleset) (W H : Nat) (thr : Int) (r : Rng) :
    (restart g newB newS W H thr r).1.gridY = H :=
  (InitializeBoard_char (updateTables { g with bRules := newB, sRules := newS })
    W H thr r).2.2.2.2.1

/-- The state after a `restart` followed by `N` generation advances with pool
size `P`. -/
def reachedState (g : Game) (newB newS : Ruleset) (W H : Nat) (thr : Int) (r : Rng)
    (P N : Nat) : Game :=
  (fun h => updateBoard h P)^[N] (restart g newB newS W H thr r).1

lemma reachedState_Inv (g : Game) (newB newS : Ruleset) (W H : Nat) (thr : Int) (r : Rng)
    (P N : Nat) (hH : 4 ≤ H) (hP : 1 ≤ P) :
    Inv (reachedState g newB newS W H thr r P N) ∧
    tablesOk (reachedState g newB newS W H thr r P N) := by
  rw [reachedState]
  exact iterate_updateBoard_Inv _ P N (restart_Inv g newB newS W H thr r)
    (restart_tablesOk g newB newS W H thr r)
    (by rw [restart_gridY]; exact hH) hP

lemma reachedState_gridX (g : Game) (newB newS : Ruleset) (W H : Nat) (thr : Int) (r : Rng)
    (P N : Nat) : (reachedState g newB newS W H thr r P N).gridX = W := by
  rw [reachedState, iterate_updateBoard_gridX, restart_gridX]

lemma reachedState_gridY (g : Game) (newB newS : Ruleset) (W H : Nat) (thr : Int) (r : Rng)
    (P N : Nat) : (reachedState g newB newS W H thr r P N).gridY = H := by
  rw [reachedState, iterate_updateBoard_gridY, restart_gridY]

lemma cellDelta_bounds (w : Nat → Int) (bt dt : Nat → Bool) (X i j n : Nat) :
    -bump9 X i j n ≤ cellDelta w bt dt X i j n ∧
      cellDelta w bt dt X i j n ≤ bump9 X i j n := by
  rw [cellDelta]
  have h1 := trans_range w bt dt X i j
  have h2 := bump9_nonneg X i j n
  constructor <;> nlinarith

lemma sum_bump9_le (W H p q : Nat) (hq : q ≤ W + 1) (S : Finset (Nat × Nat))
    (hS : S ⊆ interiorCells W H) :
    ∑ c in S, bump9 W c.1 c.2 (p * (W + 2) + q) ≤ 17 := by
  have hw := sumBump_window W H S hS (fun _ => 1) p q hq
  simp only [one_mul] at hw
  have hg := guardSum_bounds S (fun _ => 1) (fun c _ => by norm_num) p q
  rw [hw]
  split_ifs <;> omega

/-! ## Pixel-buffer coherence machinery -/

lemma applyCell_pixels_own (g : Game) (i j kk : Nat) (hkk : kk < 4) :
    (applyCell g i j).pixels (pixByte g.gridX i j kk) =
      if trans g.worldGrid g.becomesAliveTable g.becomesDeadTable g.gridX i j = 0
      then g.pixels (pixByte g.gridX i j kk)
      else if trans g.worldGrid g.becomesAliveTable g.becomesDeadTable g.gridX i j = 1
        then colors 0 kk else colors 1 kk := by
  rw [applyCell, trans]
  split
  · dsimp only
    rw [show pixByte g.gridX i j kk = 4 * ((i - 1) * g.gridX + (j - 1)) + kk from rfl,
      setPixel_at g.pixels g.gridX (j - 1) (i - 1) false kk hkk]
    norm_num
  · split
    · dsimp only
      rw [show pixByte g.gridX i j kk = 4 * ((i - 1) * g.gridX + (j - 1)) + kk from rfl,
        setPixel_at g.pixels g.gridX (j - 1) (i - 1) true kk hkk]
      norm_num
    · norm_num

lemma applyCell_pixels_ne (g : Game) (i j i' j' kk : Nat) (hi : 1 ≤ i) (hj : 1 ≤ j)
    (hjX : j ≤ g.gridX) (hi' : 1 ≤ i') (hj' : 1 ≤ j') (hjX' : j' ≤ g.gridX) (hkk : kk < 4)
    (hne : ¬(i' = i ∧ j' = j)) :
    (applyCell g i' j').pixels (pixByte g.gridX i j kk) =
      g.pixels (pixByte g.gridX i j kk) := by
  rw [applyCell]
  split
  · dsimp only
    apply setPixel_outside
    intro kk' hkk'
    exact pixByte_ne g.gridX i j i' j' kk kk' hi hi' hj hjX hj' hjX' hkk hkk' (by tauto)
  · split
    · dsimp only
      apply setPixel_outside
      intro kk' hkk'
      exact pixByte_ne g.gridX i j i' j' kk kk' hi hi' hj hjX hj' hjX' hkk hkk' (by tauto)
    · rfl

lemma applyCells_pixels (L : List (Nat × Nat)) (g : Game) (i j kk : Nat)
    (hi : 1 ≤ i) (hj : 1 ≤ j) (hjX : j ≤ g.gridX) (hkk : kk < 4)
    (hL : ∀ c ∈ L, 1 ≤ c.1 ∧ 1 ≤ c.2 ∧ c.2 ≤ g.gridX) :
    (applyCells g L).pixels (pixByte g.gridX i j kk) =
      if (i, j) ∈ L ∧
          trans g.worldGrid g.becomesAliveTable g.becomesDeadTable g.gridX i j ≠ 0
      then (if trans g.worldGrid g.becomesAliveTable g.becomesDeadTable g.gridX i j = 1
        then colors 0 kk else colors 1 kk)
      else g.pixels (pixByte g.gridX i j kk) := by
  induction L generalizing g with
  | nil => simp [applyCells]
  | cons c L ih =>
    rw [applyCells, List.foldl_cons, ← applyCells]
    have hW : (applyCell g c.1 c.2).worldGrid = g.worldGrid := applyCell_worldGrid g c.1 c.2
    have hX : (applyCell g c.1 c.2).gridX = g.gridX := applyCell_gridX g c.1 c.2
    have hA : (applyCell g c.1 c.2).becomesAliveTable = g.becomesAliveTable :=
      applyCell_becomesAliveTable g c.1 c.2
    have hD : (applyCell g c.1 c.2).becomesDeadTable = g.becomesDeadTable :=
      applyCell_becomesDeadTable g c.1 c.2
    have ihg := ih (applyCell g c.1 c.2) (by rw [hX]; exact hjX)
      (fun c' hc' => by
        rw [hX]
        exact hL c' (List.mem_cons_of_mem c hc'))
    rw [hW, hX, hA, hD] at ihg
    rw [ihg]
    by_cases hc : c = (i, j)
    · subst hc
      have hown := applyCell_pixels_own g i j kk hkk
      rw [show applyCell g (i, j).1 (i, j).2 = applyCell g i j from rfl, hown]
      simp only [List.mem_cons]
      split_ifs <;> tauto
    · have hcb := hL c (List.mem_cons_self c L)
      have hne2 : ¬(c.1 = i ∧ c.2 = j) := by
        intro h
        apply hc
        obtain ⟨c1, c2⟩ := c
        simp only at h
        rw [h.1, h.2]
      have hpe := applyCell_pixels_ne g i j c.1 c.2 kk hi hj hjX hcb.1 hcb.2.1 hcb.2.2
        hkk hne2
      rw [hpe]
      simp only [List.mem_cons]
      have hcne : ¬((i, j) = c) := fun h => hc h.symm
      split_ifs <;> tauto

lemma mem_rangeCells (X a b i j : Nat) (ha : 1 ≤ a) (hj : 1 ≤ j) (hjX : j ≤ X) :
    (i, j) ∈ rangeCells X a b ↔ a ≤ i ∧ i ≤ b := by
  constructor
  · intro hmem
    have := rangeCells_mem X a b ha (i, j) hmem
    exact ⟨this.2.2.2.1, this.2.2.1⟩
  · rintro ⟨h1, h2⟩
    rw [rangeCells, List.mem_flatten]
    refine ⟨rowCells X i, ?_, ?_⟩
    · rw [List.mem_map]
      exact ⟨i - a, by rw [List.mem_range]; omega, by rw [show a + (i - a) = i from by omega]⟩
    · rw [rowCells, List.mem_map]
      refine ⟨j - 1, by rw [List.mem_range]; omega, ?_⟩
      have : j - 1 + 1 = j := by omega
      rw [this]

lemma updateRange_pixels (g : Game) (a b : Nat) (ha : 1 ≤ a) (i j kk : Nat)
    (hi : 1 ≤ i) (hj : 1 ≤ j) (hjX : j ≤ g.gridX) (hkk : kk < 4) :
    (updateRange g a b).pixels (pixByte g.gridX i j kk) =
      if (a ≤ i ∧ i ≤ b) ∧
          trans g.worldGrid g.becomesAliveTable g.becomesDeadTable g.gridX i j ≠ 0
      then (if trans g.worldGrid g.becomesAliveTable g.becomesDeadTable g.gridX i j = 1
        then colors 0 kk else colors 1 kk)
      else g.pixels (pixByte g.gridX i j kk) := by
  rw [updateRange, applyCells_pixels (rangeCells g.gridX a b) g i j kk hi hj hjX hkk
    (fun c hc => by
      have := rangeCells_mem g.gridX a b ha c hc
      exact ⟨this.1, this.2.1, this.2.2.2.2⟩)]
  rw [if_congr (and_congr_left (fun _ => mem_rangeCells g.gridX a b i j ha hj hjX)) rfl rfl]

/-- Row `i` lies in the row interval of one of the `updateRange` tasks indexed
by `L`. -/
def visits (L : List Nat) (lo hi : Nat → Nat) (i : Nat) : Prop :=
  ∃ t ∈ L, lo t ≤ i ∧ i ≤ hi t

instance (L : List Nat) (lo hi : Nat → Nat) (i : Nat) : Decidable (visits L lo hi i) := by
  unfold visits
  infer_instance

lemma foldl_updateRange_pixels (L : List Nat) (g : Game) (lo hi : Nat → Nat)
    (hlo : ∀ t ∈ L, 1 ≤ lo t) (i j kk : Nat) (hi1 : 1 ≤ i) (hj : 1 ≤ j)
    (hjX : j ≤ g.gridX) (hkk : kk < 4) :
    (L.foldl (fun gm t => updateRange gm (lo t) (hi t)) g).pixels (pixByte g.gridX i j kk) =
      if visits L lo hi i ∧
          trans g.worldGrid g.becomesAliveTable g.becomesDeadTable g.gridX i j ≠ 0
      then (if trans g.worldGrid g.becomesAliveTable g.becomesDeadTable g.gridX i j = 1
        then colors 0 kk else colors 1 kk)
      else g.pixels (pixByte g.gridX i j kk) := by
  induction L generalizing g with
  | nil => simp [visits]
  | cons a L ih =>
    rw [List.foldl_cons]
    have hW : (updateRange g (lo a) (hi a)).worldGrid = g.worldGrid :=
      updateRange_worldGrid g (lo a) (hi a)
    have hX : (updateRange g (lo a) (hi a)).gridX = g.gridX := updateRange_gridX g (lo a) (hi a)
    have hA : (updateRange g (lo a) (hi a)).becomesAliveTable = g.becomesAliveTable :=
      updateRange_becomesAliveTable g (lo a) (hi a)
    have hD : (updateRange g (lo a) (hi a)).becomesDeadTable = g.becomesDeadTable :=
      updateRange_becomesDeadTable g (lo a) (hi a)
    have ihg := ih (updateRange g (lo a) (hi a))
      (fun t ht => hlo t (List.mem_cons_of_mem a ht)) (by rw [hX]; exact hjX)
    rw [hW, hX, hA, hD] at ihg
    rw [ihg, updateRange_pixels g (lo a) (hi a) (hlo a (List.mem_cons_self a L)) i j kk
      hi1 hj hjX hkk]
    have hiff : visits (a :: L) lo hi i ↔
        (lo a ≤ i ∧ i ≤ hi a) ∨ visits L lo hi i := by
      simp [visits, List.mem_cons, or_and_right, exists_or]
    rw [if_congr (and_congr_left (fun _ => hiff)) rfl rfl]
    by_cases ht : trans g.worldGrid g.becomesAliveTable g.becomesDeadTable g.gridX i j = 0
    · simp [ht]
    · by_cases hA : lo a ≤ i ∧ i ≤ hi a <;>
        by_cases hB : visits L lo hi i <;>
        simp [ht, hA, hB]

/-- Every interior row is visited by one of the four stages of `updateBoard`:
the first edge pass (row 1), the last edge pass (row `H`), one of the interior
passes, or one of the seam bands. -/
lemma row_covered (P H : Nat) (hH : 4 ≤ H) (hP : 1 ≤ P) (i : Nat)
    (h1 : 1 ≤ i) (h2 : i ≤ H) :
    (1 ≤ i ∧ i ≤ 1) ∨ (H ≤ i ∧ i ≤ H) ∨
    visits (List.range (numParts P H))
      (fun t => 1 + t * (H / numParts P H) + 1)
      (fun t => (if t = numParts P H - 1 then H
           else 1 + t * (H / numParts P H) + (H / numParts P H) - 1) - 1) i ∨
    visits (List.range (numParts P H - 1))
      (fun t => (t + 1) * (H / numParts P H))
      (fun t => 1 + (t + 1) * (H / numParts P H)) i := by
  simp only [visits]
  have hm := numParts_pos P H hH hP
  have hr := rowsPerPart_ge P H hH hP
  have hmul := numParts_mul_le P H hH hP
  set m := numParts P H with hmdef
  set rpp := H / m with hrppdef
  by_cases hi1 : i = 1
  · exact Or.inl ⟨by omega, by omega⟩
  by_cases hiH : i = H
  · exact Or.inr (Or.inl ⟨by omega, by omega⟩)
  have hq := Nat.div_add_mod (i - 2) rpp
  have hs : (i - 2) % rpp < rpp := Nat.mod_lt _ (by omega)
  set q := (i - 2) / rpp with hqdef
  set s := (i - 2) % rpp with hsdef
  have hqr : q * rpp = rpp * q := Nat.mul_comm q rpp
  rcases Nat.lt_or_ge q (m - 1) with hqm | hqm
  · -- part q is not the last one
    rcases Nat.lt_or_ge s (rpp - 2) with hsc | hsc
    · -- the interior pass of part q
      refine Or.inr (Or.inr (Or.inl ⟨q, by rw [List.mem_range]; omega, by omega, ?_⟩))
      rw [if_neg (by omega)]
      omega
    · -- the seam band below part q
      refine Or.inr (Or.inr (Or.inr ⟨q, by rw [List.mem_range]; omega, ?_, ?_⟩))
      · have hexp : (q + 1) * rpp = q * rpp + rpp := by ring
        omega
      · have hexp : (q + 1) * rpp = q * rpp + rpp := by ring
        omega
  · -- the interior pass of the last part
    refine Or.inr (Or.inr (Or.inl ⟨m - 1, by rw [List.mem_range]; omega, ?_, ?_⟩))
    · have hA1 : (m - 1) * rpp ≤ q * rpp := Nat.mul_le_mul_right rpp (by omega)
      omega
    · rw [if_pos rfl]
      omega

lemma updateBoard_pixels (g : Game) (P : Nat) (hH : 4 ≤ g.gridY) (hP : 1 ≤ P)
    (i j kk : Nat) (hi1 : 1 ≤ i) (hi2 : i ≤ g.gridY) (hj1 : 1 ≤ j) (hj2 : j ≤ g.gridX)
    (hkk : kk < 4) :
    (updateBoard g P).pixels (pixByte g.gridX i j kk) =
      if trans g.worldGrid g.becomesAliveTable g.becomesDeadTable g.gridX i j = 0
      then g.pixels (pixByte g.gridX i j kk)
      else if trans g.worldGrid g.becomesAliveTable g.becomesDeadTable g.gridX i j = 1
        then colors 0 kk else colors 1 kk := by
  have hm1 := numParts_pos P g.gridY hH hP
  have hr := rowsPerPart_ge P g.gridY hH hP
  rw [updateBoard]
  simp only []
  set m := numParts P g.gridY with hm
  set rpp := g.gridY / m with hrpp
  set g1 : Game := { g with buffer := g.worldGrid } with hg1
  set g2 := (List.range m).foldl (fun gm i =>
      updateRange gm (1 + i * rpp + 1) ((if i = m - 1 then g.gridY else 1 + i * rpp + rpp - 1) - 1)) g1 with hg2
  set g3 := updateRange g2 1 1 with hg3
  set g4 := updateRange g3 g.gridY g.gridY with hg4
  set g5 := (List.range (m - 1)).foldl (fun gm i0 =>
      updateRange gm (1 + (i0 + 1) * rpp - 1) (1 + (i0 + 1) * rpp)) g4 with hg5
  show g5.pixels (pixByte g.gridX i j kk) = _
  have hg2W : g2.worldGrid = g.worldGrid := by rw [hg2]; exact foldl_updateRange_worldGrid ..
  have hg2X : g2.gridX = g.gridX := by rw [hg2]; exact foldl_updateRange_gridX ..
  have hg2A : g2.becomesAliveTable = g.becomesAliveTable := by
    rw [hg2]; exact foldl_updateRange_becomesAliveTable ..
  have hg2D : g2.becomesDeadTable = g.becomesDeadTable := by
    rw [hg2]; exact foldl_updateRange_becomesDeadTable ..
  have hg3W : g3.worldGrid = g.worldGrid := by rw [hg3]; simp [hg2W]
  have hg3X : g3.gridX = g.gridX := by rw [hg3]; simp [hg2X]
  have hg3A : g3.becomesAliveTable = g.becomesAliveTable := by rw [hg3]; simp [hg2A]
  have hg3D : g3.becomesDeadTable = g.becomesDeadTable := by rw [hg3]; simp [hg2D]
  have hg4W : g4.worldGrid = g.worldGrid := by rw [hg4]; simp [hg3W]
  have hg4X : g4.gridX = g.gridX := by rw [hg4]; simp [hg3X]
  have hg4A : g4.becomesAliveTable = g.becomesAliveTable := by rw [hg4]; simp [hg3A]
  have hg4D : g4.becomesDeadTable = g.becomesDeadTable := by rw [hg4]; simp [hg3D]
  have hg1X : g1.gridX = g.gridX := rfl
  have hg1W : g1.worldGrid = g.worldGrid := rfl
  have hg1A : g1.becomesAliveTable = g.becomesAliveTable := rfl
  have hg1D : g1.becomesDeadTable = g.becomesDeadTable := rfl
  have hg1P : g1.pixels = g.pixels := rfl
  have e2 : g2.pixels (pixByte g.gridX i j kk) =
      if visits (List.range m) (fun t => 1 + t * rpp + 1)
            (fun t => (if t = m - 1 then g.gridY else 1 + t * rpp + rpp - 1) - 1) i ∧
          trans g.worldGrid g.becomesAliveTable g.becomesDeadTable g.gridX i j ≠ 0
      then (if trans g.worldGrid g.becomesAliveTable g.becomesDeadTable g.gridX i j = 1
        then colors 0 kk else colors 1 kk)
      else g.pixels (pixByte g.gridX i j kk) := by
    rw [hg2, show pixByte g.gridX i j kk = pixByte g1.gridX i j kk from rfl,
      foldl_updateRange_pixels _ g1 _ _ (fun t _ => by omega) i j kk hi1 hj1
        (by rw [hg1X]; exact hj2) hkk, hg1W, hg1X, hg1A, hg1D, hg1P]
  have e3 : g3.pixels (pixByte g.gridX i j kk) =
      if (1 ≤ i ∧ i ≤ 1) ∧
          trans g.worldGrid g.becomesAliveTable g.becomesDeadTable g.gridX i j ≠ 0
      then (if trans g.worldGrid g.becomesAliveTable g.becomesDeadTable g.gridX i j = 1
        then colors 0 kk else colors 1 kk)
      else g2.pixels (pixByte g.gridX i j kk) := by
    rw [hg3, show pixByte g.gridX i j kk = pixByte g2.gridX i j kk from by rw [hg2X],
      updateRange_pixels g2 1 1 le_rfl i j kk hi1 hj1 (by rw [hg2X]; exact hj2) hkk,
      hg2W, hg2X, hg2A, hg2D]
  have e4 : g4.pixels (pixByte g.gridX i j kk) =
      if (g.gridY ≤ i ∧ i ≤ g.gridY) ∧
          trans g.worldGrid g.becomesAliveTable g.becomesDeadTable g.gridX i j ≠ 0
      then (if trans g.worldGrid g.becomesAliveTable g.becomesDeadTable g.gridX i j = 1
        then colors 0 kk else colors 1 kk)
      else g3.pixels (pixByte g.gridX i j kk) := by
    rw [hg4, show pixByte g.gridX i j kk = pixByte g3.gridX i j kk from by rw [hg3X],
      updateRange_pixels g3 g.gridY g.gridY (by omega) i j kk hi1 hj1
        (by rw [hg3X]; exact hj2) hkk, hg3W, hg3X, hg3A, hg3D]
  have e5 : g5.pixels (pixByte g.gridX i j kk) =
      if visits (List.range (m - 1)) (fun t => 1 + (t + 1) * rpp - 1)
            (fun t => 1 + (t + 1) * rpp) i ∧
          trans g.worldGrid g.becomesAliveTable g.becomesDeadTable g.gridX i j ≠ 0
      then (if trans g.worldGrid g.becomesAliveTable g.becomesDeadTable g.gridX i j = 1
        then colors 0 kk else colors 1 kk)
      else g4.pixels (pixByte g.gridX i j kk) := by
    rw [hg5, show pixByte g.gridX i j kk = pixByte g4.gridX i j kk from by rw [hg4X],
      foldl_updateRange_pixels _ g4 _ _ (fun t _ => by
        have h1 : 0 < (t + 1) * rpp := Nat.mul_pos (by omega) (by omega)
        omega) i j kk hi1 hj1 (by rw [hg4X]; exact hj2) hkk, hg4W, hg4X, hg4A, hg4D]
  rw [e5, e4, e3, e2]
  by_cases ht : trans g.worldGrid g.becomesAliveTable g.becomesDeadTable g.gridX i j = 0
  · simp [ht]
  · rw [if_neg ht]
    have hcov := row_covered P g.gridY hH hP i hi1 hi2
    rw [← hm] at hcov
    rw [← hrpp] at hcov
    rcases hcov with h | h | h | h <;> simp [h, ht]

/-- Pixel-buffer coherence: every interior cell's 4 RGBA bytes show white
exactly when its alive bit is set, black otherwise. -/
def PixInv (g : Game) : Prop :=
  ∀ i j kk, 1 ≤ i → i ≤ g.gridY → 1 ≤ j → j ≤ g.gridX → kk < 4 →
    g.pixels (pixByte g.gridX i j kk) =
      if g.worldGrid (i * (g.gridX + 2) + j) % 2 = 1 then colors 0 kk else colors 1 kk

lemma updateBoard_PixInv (g : Game) (P : Nat) (hInv : Inv g) (htab : tablesOk g)
    (hH : 4 ≤ g.gridY) (hP : 1 ≤ P) (hpix : PixInv g) : PixInv (updateBoard g P) := by
  intro i j kk hi1 hi2 hj1 hj2 hkk
  rw [updateBoard_gridY] at hi2
  rw [updateBoard_gridX] at hj2
  rw [updateBoard_gridX]
  rw [updateBoard_pixels g P hH hP i j kk hi1 hi2 hj1 hj2 hkk]
  have hpar := updateBoard_parity g P hInv htab hH hP i j hi1 hi2 hj1 hj2
  have htr := trans_range g.worldGrid g.becomesAliveTable g.becomesDeadTable g.gridX i j
  have hcase : trans g.worldGrid g.becomesAliveTable g.becomesDeadTable g.gridX i j = -1 ∨
      trans g.worldGrid g.becomesAliveTable g.becomesDeadTable g.gridX i j = 0 ∨
      trans g.worldGrid g.becomesAliveTable g.becomesDeadTable g.gridX i j = 1 := by omega
  rcases hcase with ht | ht | ht
  · rw [ht]
    have hnew : (updateBoard g P).worldGrid (i * (g.gridX + 2) + j) % 2 = 0 := by omega
    rw [hnew]
    norm_num
  · rw [ht]
    have hnew : (updateBoard g P).worldGrid (i * (g.gridX + 2) + j) % 2 =
        g.worldGrid (i * (g.gridX + 2) + j) % 2 := by omega
    rw [hnew]
    norm_num
    exact hpix i j kk hi1 hi2 hj1 hj2 hkk
  · rw [ht]
    have hnew : (updateBoard g P).worldGrid (i * (g.gridX + 2) + j) % 2 = 1 := by omega
    rw [hnew]
    norm_num

lemma InitializeBoard_PixInv (g0 : Game) (W H : Nat) (thr : Int) (r : Rng) :
    PixInv (InitializeBoard g0 W H thr r).1 := by
  obtain ⟨hg, -, -, hX, hY, hpx, -⟩ := InitializeBoard_char g0 W H thr r
  intro i j kk hi1 hi2 hj1 hj2 hkk
  rw [hY] at hi2
  rw [hX] at hj2
  rw [hX]
  rw [hpx i j kk hi1 hi2 hj1 hj2 hkk]
  have hval := hg (i * (W + 2) + j)
  rw [partialInit, sumBump_window W H (interiorCells W H) (fun c hc => hc)
    (aliveInd r.stream r.pos W thr) i j (by omega)] at hval
  rw [if_pos (by rw [mem_interiorCells]; exact ⟨hi1, hi2, hj1, hj2⟩)] at hval
  have hpar : (InitializeBoard g0 W H thr r).1.worldGrid (i * (W + 2) + j) % 2 =
      aliveInd r.stream r.pos W thr (i, j) := by
    rcases aliveInd_eq_or r.stream r.pos W thr (i, j) with h | h <;> rw [h] at hval ⊢ <;> omega
  rw [hpar]

lemma reachedState_PixInv (g : Game) (newB newS : Ruleset) (W H : Nat) (thr : Int)
    (r : Rng) (P N : Nat) (hH : 4 ≤ H) (hP : 1 ≤ P) :
    PixInv (reachedState g newB newS W H thr r P N) := by
  rw [reachedState]
  induction N with
  | zero =>
    exact InitializeBoard_PixInv (updateTables { g with bRules := newB, sRules := newS })
      W H thr r
  | succ k ih =>
    rw [Function.iterate_succ_apply']
    have hY : ((fun h => updateBoard h P)^[k] (restart g newB newS W H thr r).1).gridY = H := by
      rw [iterate_updateBoard_gridY, restart_gridY]
    obtain ⟨hInv, htab⟩ := iterate_updateBoard_Inv (restart g newB newS W H thr r).1 P k
      (restart_Inv g newB newS W H thr r) (restart_tablesOk g newB newS W H thr r)
      (by rw [restart_gridY]; exact hH) hP
    exact updateBoard_PixInv _ P hInv htab (by rw [hY]; exact hH) hP ih

/-! ## The claims -/

/-- C3: for any rule set, any starting grid with at least 4 interior rows, and
any number of generations `N`, the grid produced by the two-phase partitioned
`updateBoard` is bit-identical for every pool size `P ∈ {1, 2, 4, 8, 16}`, and
identical to the serial snapshot-transition-swap update of the whole board. -/
theorem C3_parallel_serial_equiv (g : Game) (N : Nat) (hH : 4 ≤ g.gridY)
    (P P' : Nat) (hPm : P ∈ ({1, 2, 4, 8, 16} : Finset Nat))
    (hPm' : P' ∈ ({1, 2, 4, 8, 16} : Finset Nat)) :
    (∀ n, ((fun h => updateBoard h P)^[N] g).worldGrid n =
      (updateBoardSerial^[N] g).worldGrid n) ∧
    (∀ n, ((fun h => updateBoard h P)^[N] g).worldGrid n =
      ((fun h => updateBoard h P')^[N] g).worldGrid n) := by
  have h1 : 1 ≤ P := by fin_cases hPm <;> norm_num
  have h1' : 1 ≤ P' := by fin_cases hPm' <;> norm_num
  have e1 := (iterate_sameCore g P N hH h1).1
  have e2 := (iterate_sameCore g P' N hH h1').1
  exact ⟨fun n => congrFun e1 n, fun n => congrFun (e1.trans e2.symm) n⟩

theorem C3_parallel_serial_equiv_witness :
    4 ≤ gameA.gridY ∧ (2 : Nat) ∈ ({1, 2, 4, 8, 16} : Finset Nat) ∧
    (4 : Nat) ∈ ({1, 2, 4, 8, 16} : Finset Nat) ∧
    ((∀ n, ((fun h => updateBoard h 2)^[1] gameA).worldGrid n =
      (updateBoardSerial^[1] gameA).worldGrid n) ∧
    (∀ n, ((fun h => updateBoard h 2)^[1] gameA).worldGrid n =
      ((fun h => updateBoard h 4)^[1] gameA).worldGrid n)) :=
  ⟨by decide, by decide, by decide,
    C3_parallel_serial_equiv gameA 1 (by decide) 2 4 (by decide) (by decide)⟩

/-- C1: under the representation invariant with correctly built tables, one
`updateBoard` gives every interior cell the alive bit prescribed by the
life-like rule applied to its previous state (`bRules` at the live-neighbour
count if it was dead, `sRules` if it was alive), and the tables the kernel
consults satisfy `becomesAlive[v] = (v & 1 == 0) && B[v >> 1]` and
`becomesDead[v] = (v & 1 == 1) && !S[v >> 1]` for every packed value `v < 18`. -/
theorem C1_kernel_applies_rule (g : Game) (P : Nat) (hInv : Inv g) (htab : tablesOk g)
    (hH : 4 ≤ g.gridY) (hP : 1 ≤ P) :
    (∀ i j, 1 ≤ i → i ≤ g.gridY → 1 ≤ j → j ≤ g.gridX →
      (updateBoard g P).worldGrid (i * (g.gridX + 2) + j) % 2 =
        (if g.worldGrid (i * (g.gridX + 2) + j) % 2 = 0
         then (if g.bRules (mooreCount g.worldGrid g.gridX g.gridY i j).toNat then 1 else 0)
         else (if g.sRules (mooreCount g.worldGrid g.gridX g.gridY i j).toNat then 1 else 0)))
    ∧ (∀ v, v < 18 →
        g.becomesAliveTable v = (decide (v % 2 = 0) && g.bRules (v / 2)) ∧
        g.becomesDeadTable v = (decide (v % 2 = 1) && !(g.sRules (v / 2)))) := by
  constructor
  · intro i j h1 h2 h3 h4
    have hpar := updateBoard_parity g P hInv htab hH hP i j h1 h2 h3 h4
    obtain ⟨htA, htD⟩ := htab
    have hb := Inv_bounds g hInv i j (by omega) (by omega)
    have hbt := bit_plus_trans g.worldGrid g.bRules g.sRules g.gridX i j hb.1 hb.2
    rw [← htA, ← htD] at hbt
    have hInvc := hInv i j (by omega) (by omega)
    rw [if_pos ⟨h1, h2, h3, h4⟩] at hInvc
    have hk : (g.worldGrid (i * (g.gridX + 2) + j)).toNat / 2
        = (mooreCount g.worldGrid g.gridX g.gridY i j).toNat := by
      rw [mooreCount_eq_adjAliveSum g hInv i j]
      have hnn := adjAliveSum_nonneg g.worldGrid g.gridX g.gridY i j
      omega
    rw [hpar, hbt, hk]
  · intro v hv
    exact ⟨by rw [htab.1, mkBecomesAliveTable_eq g.bRules v hv],
      by rw [htab.2, mkBecomesDeadTable_eq g.sRules v hv]⟩

/-- C5 counterexample: the per-cell net increment of a tick can exceed 8 in
magnitude. On the all-dead 3×4 board `gB0` with a birth-on-0 rule, every
interior cell transitions up, and the center cell (2,2) (flat index 12)
receives +1 from itself and +2 from each of its 8 interior neighbours: its
value goes from 0 to 17 in one tick. -/
theorem C5_increment_bound_counterexample :
    (updateBoard gB0 1).worldGrid 12 = 17 ∧ gB0.worldGrid 12 = 0 := by
  constructor <;> decide

/-- C5 amended: packed values do stay in 0..17 (before and after a tick), and
the int8 buffer never overflows during a tick — but the tight in-tick bound is
[-17, 34] (old value plus a net increment in [-17, 17]), not the spec's
claimed per-cell increment bound of 8: still strictly within int8's
[-128, 127], so no saturation or wrap-around occurs.  The batch `L` ranges
over the (duplicate-free, interior) cell sequences the kernel tasks process
on the snapshot. -/
theorem C5_amended_range_no_overflow (g : Game) (P : Nat) (hInv : Inv g)
    (htab : tablesOk g) (hH : 4 ≤ g.gridY) (hP : 1 ≤ P) :
    (∀ p q, p ≤ g.gridY + 1 → q ≤ g.gridX + 1 →
      0 ≤ g.worldGrid (p * (g.gridX + 2) + q) ∧
        g.worldGrid (p * (g.gridX + 2) + q) ≤ 17) ∧
    (∀ p q, p ≤ g.gridY + 1 → q ≤ g.gridX + 1 →
      0 ≤ (updateBoard g P).worldGrid (p * (g.gridX + 2) + q) ∧
        (updateBoard g P).worldGrid (p * (g.gridX + 2) + q) ≤ 17) ∧
    (∀ L : List (Nat × Nat), L.Nodup →
      (∀ c ∈ L, c ∈ interiorCells g.gridX g.gridY) →
      ∀ p q, p ≤ g.gridY + 1 → q ≤ g.gridX + 1 →
        -17 ≤ (applyCells { g with buffer := g.worldGrid } L).buffer
            (p * (g.gridX + 2) + q) ∧
        (applyCells { g with buffer := g.worldGrid } L).buffer
            (p * (g.gridX + 2) + q) ≤ 34 ∧
        -128 < (applyCells { g with buffer := g.worldGrid } L).buffer
            (p * (g.gridX + 2) + q) ∧
        (applyCells { g with buffer := g.worldGrid } L).buffer
            (p * (g.gridX + 2) + q) < 128) := by
  refine ⟨fun p q hp hq => Inv_bounds g hInv p q hp hq, ?_, ?_⟩
  · intro p q hp hq
    have hInv2 := updateBoard_Inv g P hInv htab hH hP
    have hb := Inv_bounds (updateBoard g P) hInv2 p q
      (by rw [updateBoard_gridY]; omega) (by rw [updateBoard_gridX]; omega)
    rw [updateBoard_gridX] at hb
    exact hb
  · intro L hnd hsub p q hp hq
    have hbuf := applyCells_buffer L { g with buffer := g.worldGrid }
      (fun c hc => by
        have := (mem_interiorCells g.gridX g.gridY c).1 (hsub c hc)
        exact ⟨this.1, this.2.2.1⟩) (p * (g.gridX + 2) + q)
    dsimp only at hbuf
    have h1 : (L.map (fun c =>
        cellDelta g.worldGrid g.becomesAliveTable g.becomesDeadTable g.gridX c.1 c.2
          (p * (g.gridX + 2) + q))).sum =
        ∑ c in L.toFinset,
          cellDelta g.worldGrid g.becomesAliveTable g.becomesDeadTable g.gridX c.1 c.2
            (p * (g.gridX + 2) + q) :=
      (List.sum_toFinset _ hnd).symm
    have hsubF : L.toFinset ⊆ interiorCells g.gridX g.gridY := by
      intro c hc
      exact hsub c (List.mem_toFinset.1 hc)
    have h2 : ∑ c in L.toFinset,
        cellDelta g.worldGrid g.becomesAliveTable g.becomesDeadTable g.gridX c.1 c.2
          (p * (g.gridX + 2) + q) ≤
        ∑ c in L.toFinset, bump9 g.gridX c.1 c.2 (p * (g.gridX + 2) + q) :=
      Finset.sum_le_sum (fun c _ =>
        (cellDelta_bounds g.worldGrid g.becomesAliveTable g.becomesDeadTable
          g.gridX c.1 c.2 (p * (g.gridX + 2) + q)).2)
    have h2' : ∑ c in L.toFinset, (-bump9 g.gridX c.1 c.2 (p * (g.gridX + 2) + q)) ≤
        ∑ c in L.toFinset,
          cellDelta g.worldGrid g.becomesAliveTable g.becomesDeadTable g.gridX c.1 c.2
            (p * (g.gridX + 2) + q) :=
      Finset.sum_le_sum (fun c _ =>
        (cellDelta_bounds g.worldGrid g.becomesAliveTable g.becomesDeadTable
          g.gridX c.1 c.2 (p * (g.gridX + 2) + q)).1)
    rw [Finset.sum_neg_distrib] at h2'
    have h3 := sum_bump9_le g.gridX g.gridY p q hq L.toFinset hsubF
    have hw := Inv_bounds g hInv p q hp hq
    rw [hbuf, h1]
    omega

theorem C5_amended_range_no_overflow_witness :
    Inv initC ∧ tablesOk initC ∧ 4 ≤ initC.gridY ∧ 1 ≤ 1 ∧
    ((∀ p q, p ≤ initC.gridY + 1 → q ≤ initC.gridX + 1 →
      0 ≤ initC.worldGrid (p * (initC.gridX + 2) + q) ∧
        initC.worldGrid (p * (initC.gridX + 2) + q) ≤ 17) ∧
    (∀ p q, p ≤ initC.gridY + 1 → q ≤ initC.gridX + 1 →
      0 ≤ (updateBoard initC 1).worldGrid (p * (initC.gridX + 2) + q) ∧
        (updateBoard initC 1).worldGrid (p * (initC.gridX + 2) + q) ≤ 17) ∧
    (∀ L : List (Nat × Nat), L.Nodup →
      (∀ c ∈ L, c ∈ interiorCells initC.gridX initC.gridY) →
      ∀ p q, p ≤ initC.gridY + 1 → q ≤ initC.gridX + 1 →
        -17 ≤ (applyCells { initC with buffer := initC.worldGrid } L).buffer
            (p * (initC.gridX + 2) + q) ∧
        (applyCells { initC with buffer := initC.worldGrid } L).buffer
            (p * (initC.gridX + 2) + q) ≤ 34 ∧
        -128 < (applyCells { initC with buffer := initC.worldGrid } L).buffer
            (p * (initC.gridX + 2) + q) ∧
        (applyCells { initC with buffer := initC.worldGrid } L).buffer
            (p * (initC.gridX + 2) + q) < 128)) :=
  ⟨InitializeBoard_Inv gameC 3 4 0 { stream := fun _ => 0, pos := 0 }, ⟨rfl, rfl⟩,
    by decide, by decide,
    C5_amended_range_no_overflow initC 1
      (InitializeBoard_Inv gameC 3 4 0 { stream := fun _ => 0, pos := 0 })
      ⟨rfl, rfl⟩ (by decide) (by decide)⟩

/-- C2: neighbor-count consistency is established by initialization and kept
by every generation advance: in every state reached by a `restart` followed by
`N` `updateBoard` ticks, the high bits (`value >> 1`, i.e. `value / 2`) of
every interior cell equal the number of cells in its 3×3 window (the cell
itself excluded) whose alive bit is 1. -/
theorem C2_neighbor_count (g : Game) (newB newS : Ruleset) (W H : Nat) (thr : Int)
    (r : Rng) (P N : Nat) (hH : 4 ≤ H) (hP : 1 ≤ P) (i j : Nat)
    (h1 : 1 ≤ i) (h2 : i ≤ H) (h3 : 1 ≤ j) (h4 : j ≤ W) :
    (reachedState g newB newS W H thr r P N).worldGrid (i * (W + 2) + j) / 2 =
      mooreCount (reachedState g newB newS W H thr r P N).worldGrid W H i j := by
  obtain ⟨hInv, -⟩ := reachedState_Inv g newB newS W H thr r P N hH hP
  have hX := reachedState_gridX g newB newS W H thr r P N
  have hY := reachedState_gridY g newB newS W H thr r P N
  have hInvc := hInv i j (by rw [hY]; omega) (by rw [hX]; omega)
  rw [hX, hY, if_pos ⟨h1, h2, h3, h4⟩] at hInvc
  have hmc := mooreCount_eq_adjAliveSum (reachedState g newB newS W H thr r P N) hInv i j
  rw [hX, hY] at hmc
  rw [hmc]
  omega

theorem C2_neighbor_count_witness :
    4 ≤ 4 ∧ 1 ≤ 1 ∧ 1 ≤ 1 ∧ 1 ≤ 4 ∧ 1 ≤ 3 ∧
    (reachedState game0 conwayB conwayS 3 4 1 { stream := fun _ => 0, pos := 0 } 1 1).worldGrid
        (1 * (3 + 2) + 1) / 2 =
      mooreCount
        (reachedState game0 conwayB conwayS 3 4 1 { stream := fun _ => 0, pos := 0 } 1 1).worldGrid
        3 4 1 1 :=
  ⟨by decide, by decide, by decide, by decide, by decide,
    C2_neighbor_count game0 conwayB conwayS 3 4 1 { stream := fun _ => 0, pos := 0 } 1 1
      (by decide) (by decide) 1 1 (by decide) (by decide) (by decide) (by decide)⟩

/-- C10: in every reachable state the alive bit (bit 0) of every border slot
is 0: the kernel only visits interior cells as transition candidates, and all
writes the kernel or the initializer makes to border slots are even `±2`
count increments. -/
theorem C10_border_alive_bit (g : Game) (newB newS : Ruleset) (W H : Nat) (thr : Int)
    (r : Rng) (P N : Nat) (hH : 4 ≤ H) (hP : 1 ≤ P) (p q : Nat)
    (hp : p ≤ H + 1) (hq : q ≤ W + 1) (hb : isBorder W H p q) :
    (reachedState g newB newS W H thr r P N).worldGrid (p * (W + 2) + q) % 2 = 0 := by
  obtain ⟨hInv, -⟩ := reachedState_Inv g newB newS W H thr r P N hH hP
  have hX := reachedState_gridX g newB newS W H thr r P N
  have hY := reachedState_gridY g newB newS W H thr r P N
  have hInvc := hInv p q (by rw [hY]; omega) (by rw [hX]; omega)
  rw [isBorder] at hb
  rw [hX, hY, if_neg (by omega)] at hInvc
  omega

theorem C10_border_alive_bit_witness :
    4 ≤ 4 ∧ 1 ≤ 1 ∧ 0 ≤ 4 + 1 ∧ 0 ≤ 3 + 1 ∧ isBorder 3 4 0 0 ∧
    (reachedState game0 conwayB conwayS 3 4 1 { stream := fun _ => 0, pos := 0 } 1 2).worldGrid
      (0 * (3 + 2) + 0) % 2 = 0 :=
  ⟨by decide, by decide, by decide, by decide, Or.inl rfl,
    C10_border_alive_bit game0 conwayB conwayS 3 4 1 { stream := fun _ => 0, pos := 0 } 1 2
      (by decide) (by decide) 0 0 (by decide) (by decide) (Or.inl rfl)⟩

/-- C4 counterexample: the border is not all-zero, already at generation 0.
On a 1×1 board whose only cell comes up alive, `InitializeBoard` bumps every
surrounding border slot: the corner slot at flat index 0 ends at value 2. -/
theorem C4_border_zero_counterexample :
    (InitializeBoard game0 1 1 1 { stream := fun _ => 0, pos := 0 }).1.worldGrid 0 = 2 := by
  decide

/-- C4 amended: the border invariant that actually holds in every reachable
state is value = 2 × (number of alive cells in the 3×3 window): border slots
carry even neighbour counts — their alive bit is 0 — but not value 0. -/
theorem C4_amended_border_count (g : Game) (newB newS : Ruleset) (W H : Nat) (thr : Int)
    (r : Rng) (P N : Nat) (hH : 4 ≤ H) (hP : 1 ≤ P) (p q : Nat)
    (hp : p ≤ H + 1) (hq : q ≤ W + 1) (hb : isBorder W H p q) :
    (reachedState g newB newS W H thr r P N).worldGrid (p * (W + 2) + q) =
      2 * mooreCount (reachedState g newB newS W H thr r P N).worldGrid W H p q := by
  obtain ⟨hInv, -⟩ := reachedState_Inv g newB newS W H thr r P N hH hP
  have hX := reachedState_gridX g newB newS W H thr r P N
  have hY := reachedState_gridY g newB newS W H thr r P N
  have hInvc := hInv p q (by rw [hY]; omega) (by rw [hX]; omega)
  rw [isBorder] at hb
  rw [hX, hY, if_neg (by omega)] at hInvc
  have hmc := mooreCount_eq_adjAliveSum (reachedState g newB newS W H thr r P N) hInv p q
  rw [hX, hY] at hmc
  rw [hmc]
  omega

theorem C4_amended_border_count_witness :
    4 ≤ 4 ∧ 1 ≤ 1 ∧ 0 ≤ 4 + 1 ∧ 0 ≤ 3 + 1 ∧ isBorder 3 4 0 0 ∧
    (reachedState game0 conwayB conwayS 3 4 1 { stream := fun _ => 0, pos := 0 } 1 1).worldGrid
        (0 * (3 + 2) + 0) =
      2 * mooreCount
        (reachedState game0 conwayB conwayS 3 4 1 { stream := fun _ => 0, pos := 0 } 1 1).worldGrid
        3 4 0 0 :=
  ⟨by decide, by decide, by decide, by decide, Or.inl rfl,
    C4_amended_border_count game0 conwayB conwayS 3 4 1 { stream := fun _ => 0, pos := 0 } 1 1
      (by decide) (by decide) 0 0 (by decide) (by decide) (Or.inl rfl)⟩

/-- C8 counterexample: an in-process re-initialization via `restart` with the
same draw stream, dimensions and density does not reproduce the board, because
the PRNG is seeded only once and `restart` continues from the advanced
position: on a 1×1 board with the identity stream and threshold 1, the first
fill draws 0 (alive, cell value 1) but the restart draws 1 (dead, value 0). -/
theorem C8_restart_determinism_counterexample :
    (InitializeBoard game0 1 1 1 { stream := fun k => k, pos := 0 }).1.worldGrid 4 = 1 ∧
    (restart (InitializeBoard game0 1 1 1 { stream := fun k => k, pos := 0 }).1
        conwayB conwayS 1 1 1
        (InitializeBoard game0 1 1 1 { stream := fun k => k, pos := 0 }).2).1.worldGrid 4 = 0 := by
  constructor <;> decide

/-- C8 amended: initialization is deterministic in the dimensions, the density
threshold, and the full PRNG state (draw stream and position): two runs from
equal PRNG states produce pointwise identical grids, whatever game values they
start from.  The stated claim fails only for same-process `restart`, which
reuses the advanced stream position instead of reseeding. -/
theorem C8_amended_deterministic_init (g g' : Game) (W H : Nat) (thr : Int) (r r' : Rng)
    (hs : r.stream = r'.stream) (hp : r.pos = r'.pos) (n : Nat) :
    (InitializeBoard g W H thr r).1.worldGrid n =
      (InitializeBoard g' W H thr r').1.worldGrid n := by
  rw [(InitializeBoard_char g W H thr r).1 n, (InitializeBoard_char g' W H thr r').1 n, hs, hp]

theorem C8_amended_deterministic_init_witness :
    ({ stream := fun _ => 0, pos := 0 } : Rng).stream =
        ({ stream := fun _ => 0, pos := 0 } : Rng).stream ∧
    ({ stream := fun _ => 0, pos := 0 } : Rng).pos =
        ({ stream := fun _ => 0, pos := 0 } : Rng).pos ∧
    (InitializeBoard game0 1 1 1 { stream := fun _ => 0, pos := 0 }).1.worldGrid 4 =
      (InitializeBoard gameA 1 1 1 { stream := fun _ => 0, pos := 0 }).1.worldGrid 4 :=
  ⟨rfl, rfl,
    C8_amended_deterministic_init game0 gameA 1 1 1
      { stream := fun _ => 0, pos := 0 } { stream := fun _ => 0, pos := 0 } rfl rfl 4⟩

/-- C7 counterexample: the partition guarantee fails for small heights. For
`H = 3` (any `H ≤ 3`) and pool size 2, the clamp gives
`numParts = H / 4 = 0`, and Go's subsequent `rowsPerPart := g.gridY / numParts`
is a division by zero (an integer-division panic at runtime). -/
theorem C7_partition_counterexample : numParts 2 3 = 0 := by decide

/-- C7 amended: for boards with `H ≥ 4` interior rows and pool size `P ≥ 1`
the partition step is sound: at least one range, every range at least 4 rows
(`rowsPerPart = H / numParts ≥ 4`), heights below 8 fall back to a single
range, and the interior passes, the two edge rows and the seam bands of one
tick together cover every interior row exactly once. -/
theorem C7_amended_partition (P H : Nat) (hH : 4 ≤ H) (hP : 1 ≤ P) :
    1 ≤ numParts P H ∧ 4 ≤ H / numParts P H ∧ (H < 8 → numParts P H = 1) ∧
    ∀ rrow, 1 ≤ rrow → rrow ≤ H →
      (∑ i in Finset.range (numParts P H),
        ∑ r in Finset.Ico (i * (H / numParts P H) + 2)
          (if i = numParts P H - 1 then H else (i + 1) * (H / numParts P H)),
          (if r = rrow then (1 : Nat) else 0))
      + (∑ r in Finset.Ico 1 2, (if r = rrow then (1 : Nat) else 0))
      + (∑ r in Finset.Ico H (H + 1), (if r = rrow then (1 : Nat) else 0))
      + (∑ i0 in Finset.range (numParts P H - 1),
          ∑ r in Finset.Ico ((i0 + 1) * (H / numParts P H))
            ((i0 + 1) * (H / numParts P H) + 2),
            (if r = rrow then (1 : Nat) else 0)) = 1 := by
  refine ⟨numParts_pos P H hH hP, rowsPerPart_ge P H hH hP, ?_, ?_⟩
  · intro h8
    have ha := numParts_le_div P H hP
    have hb := numParts_pos P H hH hP
    have : H / 4 = 1 := by omega
    omega
  · intro rrow ha hb
    rw [taskSum (fun r => if r = rrow then (1 : Nat) else 0) H P hH hP]
    rw [Finset.sum_ite_eq' (Finset.Ico 1 (H + 1)) rrow (fun _ => (1 : Nat))]
    rw [if_pos (by rw [Finset.mem_Ico]; omega)]

theorem C7_amended_partition_witness :
    4 ≤ 9 ∧ 1 ≤ 2 ∧
    (1 ≤ numParts 2 9 ∧ 4 ≤ 9 / numParts 2 9 ∧ (9 < 8 → numParts 2 9 = 1) ∧
    ∀ rrow, 1 ≤ rrow → rrow ≤ 9 →
      (∑ i in Finset.range (numParts 2 9),
        ∑ r in Finset.Ico (i * (9 / numParts 2 9) + 2)
          (if i = numParts 2 9 - 1 then 9 else (i + 1) * (9 / numParts 2 9)),
          (if r = rrow then (1 : Nat) else 0))
      + (∑ r in Finset.Ico 1 2, (if r = rrow then (1 : Nat) else 0))
      + (∑ r in Finset.Ico 9 (9 + 1), (if r = rrow then (1 : Nat) else 0))
      + (∑ i0 in Finset.range (numParts 2 9 - 1),
          ∑ r in Finset.Ico ((i0 + 1) * (9 / numParts 2 9))
            ((i0 + 1) * (9 / numParts 2 9) + 2),
            (if r = rrow then (1 : Nat) else 0)) = 1) :=
  ⟨by decide, by decide, C7_amended_partition 2 9 (by decide) (by decide)⟩

/-- C6: pixel-buffer coherence after initialization and after every
generation advance: for every interior cell, the 4 bytes of the pixel buffer
at offset `4*((i-1)*W + (j-1))` are the WHITE bytes `colors 0` (255,255,255,255)
when the cell's alive bit is 1 and the BLACK bytes `colors 1` (0,0,0,255) when
it is 0; and every byte of the `4*W*H`-byte buffer belongs to some interior
cell's 4-byte group, so no other byte patterns occur. -/
theorem C6_pixel_coherence (g : Game) (newB newS : Ruleset) (W H : Nat) (thr : Int)
    (r : Rng) (P N : Nat) (hH : 4 ≤ H) (hP : 1 ≤ P) :
    (∀ i j kk, 1 ≤ i → i ≤ H → 1 ≤ j → j ≤ W → kk < 4 →
      (reachedState g newB newS W H thr r P N).pixels (pixByte W i j kk) =
        if (reachedState g newB newS W H thr r P N).worldGrid (i * (W + 2) + j) % 2 = 1
        then colors 0 kk else colors 1 kk) ∧
    (∀ b, b < 4 * W * H → ∃ i j kk, 1 ≤ i ∧ i ≤ H ∧ 1 ≤ j ∧ j ≤ W ∧ kk < 4 ∧
      b = pixByte W i j kk) := by
  constructor
  · intro i j kk hi1 hi2 hj1 hj2 hkk
    have hpi := reachedState_PixInv g newB newS W H thr r P N hH hP
    have hX := reachedState_gridX g newB newS W H thr r P N
    have hY := reachedState_gridY g newB newS W H thr r P N
    have hc := hpi i j kk hi1 (by rw [hY]; exact hi2) hj1 (by rw [hX]; exact hj2) hkk
    rw [hX] at hc
    exact hc
  · intro b hb
    have h4 : 4 * W * H = 4 * (W * H) := by ring
    rcases Nat.eq_zero_or_pos W with hW0 | hW
    · subst hW0
      omega
    have h3 : b / 4 < W * H := by omega
    have h5 : b / 4 / W < H := by
      rw [Nat.div_lt_iff_lt_mul hW]
      calc b / 4 < W * H := h3
        _ = H * W := Nat.mul_comm W H
    have h6 := Nat.mod_lt (b / 4) hW
    refine ⟨b / 4 / W + 1, b / 4 % W + 1, b % 4, Nat.succ_le_succ (Nat.zero_le _),
      Nat.succ_le_of_lt h5, Nat.succ_le_succ (Nat.zero_le _), Nat.succ_le_of_lt h6,
      Nat.mod_lt b (by norm_num), ?_⟩
    rw [pixByte]
    simp only [Nat.add_sub_cancel]
    have h1 := Nat.div_add_mod b 4
    have h2 := Nat.div_add_mod (b / 4) W
    have hc : b / 4 / W * W = W * (b / 4 / W) := Nat.mul_comm _ _
    omega

theorem C6_pixel_coherence_witness :
    4 ≤ 4 ∧ 1 ≤ 1 ∧
    ((∀ i j kk, 1 ≤ i → i ≤ 4 → 1 ≤ j → j ≤ 3 → kk < 4 →
      (reachedState game0 conwayB conwayS 3 4 1 { stream := fun _ => 0, pos := 0 } 1 1).pixels
          (pixByte 3 i j kk) =
        if (reachedState game0 conwayB conwayS 3 4 1
              { stream := fun _ => 0, pos := 0 } 1 1).worldGrid (i * (3 + 2) + j) % 2 = 1
        then colors 0 kk else colors 1 kk) ∧
    (∀ b, b < 4 * 3 * 4 → ∃ i j kk, 1 ≤ i ∧ i ≤ 4 ∧ 1 ≤ j ∧ j ≤ 3 ∧ kk < 4 ∧
      b = pixByte 3 i j kk)) :=
  ⟨by decide, by decide,
    C6_pixel_coherence game0 conwayB conwayS 3 4 1 { stream := fun _ => 0, pos := 0 } 1 1
      (by decide) (by decide)⟩

set_option maxRecDepth 10000 in
/-- C9: Conway round-trip on the concrete 5×5 board. `blinkGame` is the board
the Go start-up flow produces for the vertical blinker (alive cells exactly
(1,2), (2,2), (3,2), neighbour counts initialized consistently, rules B3/S23):
two `updateBoard` ticks return every one of the 49 packed slots to its initial
value (`G(2) = G(0)`), and one tick yields exactly the rotated (horizontal)
blinker (2,1), (2,2), (2,3). -/
theorem C9_conway_blinker_roundtrip :
    (∀ n, n < 49 →
      ((fun h => updateBoard h 1)^[2] blinkGame).worldGrid n = blinkGame.worldGrid n) ∧
    (∀ i, i < 7 → ∀ j, j < 7 →
      ((updateBoard blinkGame 1).worldGrid (i * 7 + j) % 2 = 1 ↔
        (i = 2 ∧ (j = 1 ∨ j = 2 ∨ j = 3)))) ∧
    (∀ i, i < 7 → ∀ j, j < 7 →
      (blinkGame.worldGrid (i * 7 + j) % 2 = 1 ↔ (j = 2 ∧ (i = 1 ∨ i = 2 ∨ i = 3)))) := by
  refine ⟨by decide, by decide, by decide⟩

theorem C1_kernel_applies_rule_witness :
    Inv initC ∧ tablesOk initC ∧ 4 ≤ initC.gridY ∧ 1 ≤ 1 ∧
    ((∀ i j, 1 ≤ i → i ≤ initC.gridY → 1 ≤ j → j ≤ initC.gridX →
      (updateBoard initC 1).worldGrid (i * (initC.gridX + 2) + j) % 2 =
        (if initC.worldGrid (i * (initC.gridX + 2) + j) % 2 = 0
         then (if initC.bRules (mooreCount initC.worldGrid initC.gridX initC.gridY i j).toNat
               then 1 else 0)
         else (if initC.sRules (mooreCount initC.worldGrid initC.gridX initC.gridY i j).toNat
               then 1 else 0)))
    ∧ (∀ v, v < 18 →
        initC.becomesAliveTable v = (decide (v % 2 = 0) && initC.bRules (v / 2)) ∧
        initC.becomesDeadTable v = (decide (v % 2 = 1) && !(initC.sRules (v / 2))))) :=
  ⟨InitializeBoard_Inv gameC 3 4 0 { stream := fun _ => 0, pos := 0 }, ⟨rfl, rfl⟩,
    by decide, by decide,
    C1_kernel_applies_rule initC 1
      (InitializeBoard_Inv gameC 3 4 0 { stream := fun _ => 0, pos := 0 })
      ⟨rfl, rfl⟩ (by decide) (by decide)⟩

end GoLLCA
